import Mathlib

/-!
Verification of the iwinswap-erc20-token-system token registry.

The Go package keeps token records in a dense struct-of-arrays layout
(`TokenRegistry` in token.go) with two map indices (identifier → slot,
address → identifier) and a monotonically advancing uint64 identifier
counter.  This file embeds the store and its operations shallowly:

* `common.Address` values are modeled as natural numbers (the registry
  only ever compares them for equality and uses them as map keys);
* `float64` fee values are modeled by their 64-bit patterns as naturals
  (the registry only stores and copies them, never computes with them);
* Go `map` values are modeled as association lists with the operations
  `mapLookup` / `mapInsert` / `mapErase` (insert overwrites, erase under
  the no-duplicate-keys invariant removes the key);
* the uint64 counter arithmetic (`nextID++`, `maxID + 1`) is modeled
  with explicit reduction modulo `2 ^ 64`.
-/

set_option maxHeartbeats 1000000

deriving instance DecidableEq for Except

namespace Token

/-- Modulus of Go's uint64 arithmetic. -/
def U64 : Nat := 2 ^ 64

/-- Lookup of a key in an association list, first entry wins
(the semantics of a Go map read `m[k]`, together with the ok-flag via
`Option`). -/
def mapLookup {β : Type} (k : Nat) : List (Nat × β) → Option β
  | [] => none
  | p :: t => if p.1 = k then some p.2 else mapLookup k t

/-- Insertion of a binding in an association list, overwriting the first
entry holding the key (the semantics of a Go map write `m[k] = v`). -/
def mapInsert {β : Type} (k : Nat) (v : β) : List (Nat × β) → List (Nat × β)
  | [] => [(k, v)]
  | p :: t => if p.1 = k then (k, v) :: t else p :: mapInsert k v t

/-- Removal of the first entry holding the key (the semantics of Go's
`delete(m, k)` on maps whose keys are unduplicated). -/
def mapErase {β : Type} (k : Nat) : List (Nat × β) → List (Nat × β)
  | [] => []
  | p :: t => if p.1 = k then t else p :: mapErase k t

/-- Keys of an association list. -/
def mapKeys {β : Type} (m : List (Nat × β)) : List Nat := m.map Prod.fst

/-- Element of a list at an index with an out-of-range default
(indexing `l[i]` in Go; the registry's invariants keep every such index
in range, so the default never matters on the states the theorems are
about). -/
def nth {α : Type} : List α → Nat → α → α
  | [], _, d => d
  | x :: _, 0, _ => x
  | _ :: t, n + 1, d => nth t n d

/-- TokenView from token.go: the flattened external projection of one
record. -/
structure TokenView where
  id : Nat
  address : Nat
  name : String
  symbol : String
  decimals : Nat
  feeOnTransferPercent : Nat
  gasForTransfer : Nat
deriving DecidableEq

/-- TokenRegistry from token.go: parallel per-field sequences plus the
two map indices and the identifier counter. -/
structure TokenRegistry where
  address : List Nat
  name : List String
  symbol : List String
  decimals : List Nat
  feeOnTransferPercent : List Nat
  gasForTransfer : List Nat
  id : List Nat
  nextID : Nat
  idToIndex : List (Nat × Nat)
  addressToID : List (Nat × Nat)
deriving DecidableEq

/-- Error taxonomy of the token package (token.go's sentinel errors;
the duplicate errors carry the offending value that Go wraps into the
message with fmt.Errorf). -/
inductive Err where
  | tokenNotFound
  | alreadyExists
  | duplicateID (id : Nat)
  | duplicateAddress (addr : Nat)
deriving DecidableEq

/-- NewTokenRegistry from token.go: empty sequences and maps, counter
at 1. -/
def NewTokenRegistry : TokenRegistry :=
  { address := [], name := [], symbol := [], decimals := []
    feeOnTransferPercent := [], gasForTransfer := [], id := []
    nextID := 1, idToIndex := [], addressToID := [] }

/-- addToken from token.go: reject a live address, otherwise allocate
the next identifier, append the record to every sequence (fee and gas
zero), and register both index entries.  The first component carries
Go's `(uint64, error)` result, the second the registry state after the
call (unchanged on the error path, exactly as the Go function returns
before any mutation). -/
def addToken (addr : Nat) (name symbol : String) (decimals : Nat)
    (r : TokenRegistry) : Except Err Nat × TokenRegistry :=
  match mapLookup addr r.addressToID with
  | some _ => (.error .alreadyExists, r)
  | none =>
    let newID := r.nextID
    let newIndex := r.address.length
    (.ok newID,
      { address := r.address ++ [addr]
        name := r.name ++ [name]
        symbol := r.symbol ++ [symbol]
        decimals := r.decimals ++ [decimals]
        feeOnTransferPercent := r.feeOnTransferPercent ++ [0]
        gasForTransfer := r.gasForTransfer ++ [0]
        id := r.id ++ [newID]
        nextID := (r.nextID + 1) % U64
        idToIndex := mapInsert newID newIndex r.idToIndex
        addressToID := mapInsert addr newID r.addressToID })

/-- deleteToken from token.go: swap-and-pop.  Resolve the slot; if it is
not the last slot overwrite it in every sequence with the last slot's
values and repoint the relocated identifier's index entry; then truncate
every sequence by one and remove both index entries of the deleted
record. -/
def deleteToken (idToDelete : Nat) (r : TokenRegistry) :
    Except Err Unit × TokenRegistry :=
  match mapLookup idToDelete r.idToIndex with
  | none => (.error .tokenNotFound, r)
  | some indexToDelete =>
    let addressToDelete := nth r.address indexToDelete 0
    let lastIndex := r.address.length - 1
    let r1 : TokenRegistry :=
      if indexToDelete ≠ lastIndex then
        let lastID := nth r.id lastIndex 0
        { r with
          address := r.address.set indexToDelete (nth r.address lastIndex 0)
          name := r.name.set indexToDelete (nth r.name lastIndex "")
          symbol := r.symbol.set indexToDelete (nth r.symbol lastIndex "")
          decimals := r.decimals.set indexToDelete (nth r.decimals lastIndex 0)
          feeOnTransferPercent :=
            r.feeOnTransferPercent.set indexToDelete (nth r.feeOnTransferPercent lastIndex 0)
          gasForTransfer :=
            r.gasForTransfer.set indexToDelete (nth r.gasForTransfer lastIndex 0)
          id := r.id.set indexToDelete lastID
          idToIndex := mapInsert lastID indexToDelete r.idToIndex }
      else r
    (.ok (),
      { r1 with
        address := r1.address.take lastIndex
        name := r1.name.take lastIndex
        symbol := r1.symbol.take lastIndex
        decimals := r1.decimals.take lastIndex
        feeOnTransferPercent := r1.feeOnTransferPercent.take lastIndex
        gasForTransfer := r1.gasForTransfer.take lastIndex
        id := r1.id.take lastIndex
        idToIndex := mapErase idToDelete r1.idToIndex
        addressToID := mapErase addressToDelete r1.addressToID })

/-- updateToken from token.go: overwrite fee and gas in place at the
identifier's slot. -/
def updateToken (id fee gas : Nat) (r : TokenRegistry) :
    Except Err Unit × TokenRegistry :=
  match mapLookup id r.idToIndex with
  | none => (.error .tokenNotFound, r)
  | some index =>
    (.ok (),
      { r with
        feeOnTransferPercent := r.feeOnTransferPercent.set index fee
        gasForTransfer := r.gasForTransfer.set index gas })

/-- getTokenByID from token.go: view of the slot the identifier maps
to. -/
def getTokenByID (id : Nat) (r : TokenRegistry) : Except Err TokenView :=
  match mapLookup id r.idToIndex with
  | none => .error .tokenNotFound
  | some index =>
    .ok { id := id
          address := nth r.address index 0
          name := nth r.name index ""
          symbol := nth r.symbol index ""
          decimals := nth r.decimals index 0
          feeOnTransferPercent := nth r.feeOnTransferPercent index 0
          gasForTransfer := nth r.gasForTransfer index 0 }

/-- getTokenByAddress from token.go: resolve address → identifier with
an ok-check, then identifier → slot WITHOUT an ok-check (a missing
identifier yields Go's zero value 0 for the slot), and build the view
from that slot. -/
def getTokenByAddress (addr : Nat) (r : TokenRegistry) : Except Err TokenView :=
  match mapLookup addr r.addressToID with
  | none => .error .tokenNotFound
  | some id =>
    let index := (mapLookup id r.idToIndex).getD 0
    .ok { id := id
          address := nth r.address index 0
          name := nth r.name index ""
          symbol := nth r.symbol index ""
          decimals := nth r.decimals index 0
          feeOnTransferPercent := nth r.feeOnTransferPercent index 0
          gasForTransfer := nth r.gasForTransfer index 0 }

/-- viewRegistry from token.go: one view per slot, in physical slot
order. -/
def viewRegistry (r : TokenRegistry) : List TokenView :=
  (List.range r.address.length).map fun i =>
    { id := nth r.id i 0
      address := nth r.address i 0
      name := nth r.name i ""
      symbol := nth r.symbol i ""
      decimals := nth r.decimals i 0
      feeOnTransferPercent := nth r.feeOnTransferPercent i 0
      gasForTransfer := nth r.gasForTransfer i 0 }

/-- Loop body of NewTokenRegistryFromViews from token.go: validate each
view against the partially built maps (identifier check first, then
address check), append its fields, register both index entries, and
track the running maximum identifier. -/
def fromViewsLoop : List TokenView → TokenRegistry → Nat →
    Except Err (TokenRegistry × Nat)
  | [], acc, maxID => .ok (acc, maxID)
  | v :: rest, acc, maxID =>
    match mapLookup v.id acc.idToIndex with
    | some _ => .error (.duplicateID v.id)
    | none =>
      match mapLookup v.address acc.addressToID with
      | some _ => .error (.duplicateAddress v.address)
      | none =>
        fromViewsLoop rest
          { address := acc.address ++ [v.address]
            name := acc.name ++ [v.name]
            symbol := acc.symbol ++ [v.symbol]
            decimals := acc.decimals ++ [v.decimals]
            feeOnTransferPercent := acc.feeOnTransferPercent ++ [v.feeOnTransferPercent]
            gasForTransfer := acc.gasForTransfer ++ [v.gasForTransfer]
            id := acc.id ++ [v.id]
            nextID := acc.nextID
            idToIndex := mapInsert v.id acc.address.length acc.idToIndex
            addressToID := mapInsert v.address v.id acc.addressToID }
          (max maxID v.id)

/-- NewTokenRegistryFromViews from token.go: run the validation and
population loop from an empty registry, then set the counter to one
past the maximum identifier seen (uint64 arithmetic). -/
def NewTokenRegistryFromViews (views : List TokenView) : Except Err TokenRegistry :=
  match fromViewsLoop views NewTokenRegistry 0 with
  | .error e => .error e
  | .ok (acc, maxID) => .ok { acc with nextID := (maxID + 1) % U64 }

/-- Operations a caller can drive the mutating part of the store with
(the subject of the sequence-of-operations claims). -/
inductive Op where
  | insert (addr : Nat) (name symbol : String) (decimals : Nat)
  | delete (id : Nat)

/-- State reached after one operation (errors leave the registry as the
Go functions do: untouched). -/
def applyOp (op : Op) (r : TokenRegistry) : TokenRegistry :=
  match op with
  | .insert a n s d => (addToken a n s d r).2
  | .delete i => (deleteToken i r).2

/-- State reached after a sequence of operations. -/
def run (ops : List Op) (r : TokenRegistry) : TokenRegistry :=
  ops.foldl (fun r op => applyOp op r) r

/-- Identifier returned by one operation (successful inserts only). -/
def opResultId (op : Op) (r : TokenRegistry) : Option Nat :=
  match op with
  | .insert a n s d => (addToken a n s d r).1.toOption
  | .delete _ => none

/-- Identifiers returned by the successful inserts of a sequence of
operations, in order. -/
def runIds : List Op → TokenRegistry → List Nat
  | [], _ => []
  | op :: rest, r => (opResultId op r).toList ++ runIds rest (applyOp op r)

/-! Lemma kit for the association-list model of Go maps. -/

@[simp] theorem mapLookup_nil {β : Type} (k : Nat) :
    mapLookup k ([] : List (Nat × β)) = none := rfl

@[simp] theorem mapLookup_cons {β : Type} (k : Nat) (p : Nat × β) (t : List (Nat × β)) :
    mapLookup k (p :: t) = if p.1 = k then some p.2 else mapLookup k t := rfl

theorem mapInsert_cons_eq {β : Type} {q : Nat × β} {k : Nat} (v : β) (t : List (Nat × β))
    (h : q.1 = k) : mapInsert k v (q :: t) = (k, v) :: t := by
  simp [mapInsert, h]

theorem mapInsert_cons_ne {β : Type} {q : Nat × β} {k : Nat} (v : β) (t : List (Nat × β))
    (h : q.1 ≠ k) : mapInsert k v (q :: t) = q :: mapInsert k v t := by
  simp [mapInsert, h]

theorem mapErase_cons_eq {β : Type} {q : Nat × β} {k : Nat} (t : List (Nat × β))
    (h : q.1 = k) : mapErase k (q :: t) = t := by
  simp [mapErase, h]

theorem mapErase_cons_ne {β : Type} {q : Nat × β} {k : Nat} (t : List (Nat × β))
    (h : q.1 ≠ k) : mapErase k (q :: t) = q :: mapErase k t := by
  simp [mapErase, h]

@[simp] theorem mapLookup_insert_self {β : Type} (k : Nat) (v : β) (m : List (Nat × β)) :
    mapLookup k (mapInsert k v m) = some v := by
  induction m with
  | nil => simp [mapInsert]
  | cons p t ih =>
    by_cases h : p.1 = k
    · rw [mapInsert_cons_eq v t h]
      simp
    · rw [mapInsert_cons_ne v t h, mapLookup_cons, if_neg h, ih]

theorem mapLookup_insert_ne {β : Type} {k k' : Nat} (v : β) (m : List (Nat × β))
    (h : k' ≠ k) : mapLookup k' (mapInsert k v m) = mapLookup k' m := by
  induction m with
  | nil => simp [mapInsert, Ne.symm h]
  | cons p t ih =>
    by_cases hp : p.1 = k
    · rw [mapInsert_cons_eq v t hp, mapLookup_cons, mapLookup_cons,
        if_neg (Ne.symm h), if_neg (by omega : ¬p.1 = k')]
    · rw [mapInsert_cons_ne v t hp, mapLookup_cons, mapLookup_cons, ih]

theorem mapLookup_eq_none_of_not_mem_keys {β : Type} {k : Nat} {m : List (Nat × β)}
    (h : k ∉ m.map Prod.fst) : mapLookup k m = none := by
  induction m with
  | nil => rfl
  | cons p t ih =>
    simp only [List.map_cons, List.mem_cons] at h
    push_neg at h
    rw [mapLookup_cons, if_neg (Ne.symm h.1), ih h.2]

theorem mapLookup_isSome_iff_mem_keys {β : Type} (k : Nat) (m : List (Nat × β)) :
    (mapLookup k m).isSome = true ↔ k ∈ m.map Prod.fst := by
  induction m with
  | nil => simp
  | cons p t ih =>
    rw [mapLookup_cons]
    by_cases h : p.1 = k
    · simp [h]
    · rw [if_neg h]
      simp only [ih, List.map_cons, List.mem_cons]
      exact ⟨Or.inr, fun hh => hh.elim (fun h1 => absurd h1.symm h) (fun h1 => h1)⟩

theorem mem_of_mapLookup_eq_some {β : Type} {k : Nat} {v : β} {m : List (Nat × β)}
    (h : mapLookup k m = some v) : (k, v) ∈ m := by
  induction m with
  | nil => simp [mapLookup] at h
  | cons p t ih =>
    by_cases hp : p.1 = k
    · rw [mapLookup_cons, if_pos hp, Option.some.injEq] at h
      exact List.mem_cons.2 (Or.inl (by cases p; simp_all))
    · rw [mapLookup_cons, if_neg hp] at h
      exact List.mem_cons_of_mem _ (ih h)

theorem mapLookup_eq_some_of_mem {β : Type} {k : Nat} {v : β} {m : List (Nat × β)}
    (hnd : (m.map Prod.fst).Nodup) (h : (k, v) ∈ m) : mapLookup k m = some v := by
  induction m with
  | nil => simp at h
  | cons p t ih =>
    simp only [List.map_cons, List.nodup_cons] at hnd
    rcases List.mem_cons.1 h with h1 | h1
    · rw [← h1]
      simp [mapLookup]
    · have hk : k ∈ t.map Prod.fst := List.mem_map_of_mem Prod.fst h1
      have hp : p.1 ≠ k := fun hh => hnd.1 (hh ▸ hk)
      rw [mapLookup_cons, if_neg hp, ih hnd.2 h1]

theorem mapErase_sublist {β : Type} (k : Nat) (m : List (Nat × β)) :
    (mapErase k m).Sublist m := by
  induction m with
  | nil => exact List.Sublist.refl _
  | cons p t ih =>
    by_cases h : p.1 = k
    · rw [mapErase_cons_eq t h]
      exact List.sublist_cons_self p t
    · rw [mapErase_cons_ne t h]
      exact ih.cons₂ p

theorem keys_nodup_mapErase {β : Type} {k : Nat} {m : List (Nat × β)}
    (h : (m.map Prod.fst).Nodup) : ((mapErase k m).map Prod.fst).Nodup :=
  ((mapErase_sublist k m).map Prod.fst).nodup h

theorem mapLookup_erase_ne {β : Type} {k k' : Nat} (m : List (Nat × β))
    (h : k' ≠ k) : mapLookup k' (mapErase k m) = mapLookup k' m := by
  induction m with
  | nil => rfl
  | cons p t ih =>
    by_cases hp : p.1 = k
    · rw [mapErase_cons_eq t hp, mapLookup_cons, if_neg (by omega : ¬p.1 = k')]
    · rw [mapErase_cons_ne t hp, mapLookup_cons, mapLookup_cons, ih]

theorem mapLookup_erase_self {β : Type} {k : Nat} {m : List (Nat × β)}
    (hnd : (m.map Prod.fst).Nodup) : mapLookup k (mapErase k m) = none := by
  induction m with
  | nil => rfl
  | cons p t ih =>
    simp only [List.map_cons, List.nodup_cons] at hnd
    by_cases hp : p.1 = k
    · rw [mapErase_cons_eq t hp]
      exact mapLookup_eq_none_of_not_mem_keys (hp ▸ hnd.1)
    · rw [mapErase_cons_ne t hp, mapLookup_cons, if_neg hp, ih hnd.2]

theorem mem_keys_mapInsert {β : Type} (a k : Nat) (v : β) (m : List (Nat × β)) :
    a ∈ (mapInsert k v m).map Prod.fst ↔ a = k ∨ a ∈ m.map Prod.fst := by
  induction m with
  | nil => simp [mapInsert]
  | cons p t ih =>
    by_cases h : p.1 = k
    · rw [mapInsert_cons_eq v t h]
      subst h
      simp only [List.map_cons, List.mem_cons]
      tauto
    · rw [mapInsert_cons_ne v t h]
      simp only [List.map_cons, List.mem_cons, ih]
      tauto

theorem keys_nodup_mapInsert {β : Type} {k : Nat} (v : β) {m : List (Nat × β)}
    (hnd : (m.map Prod.fst).Nodup) : ((mapInsert k v m).map Prod.fst).Nodup := by
  induction m with
  | nil => simp [mapInsert]
  | cons p t ih =>
    simp only [List.map_cons, List.nodup_cons] at hnd
    by_cases h : p.1 = k
    · rw [mapInsert_cons_eq v t h]
      simp only [List.map_cons, List.nodup_cons]
      exact ⟨h ▸ hnd.1, hnd.2⟩
    · rw [mapInsert_cons_ne v t h]
      simp only [List.map_cons, List.nodup_cons]
      refine ⟨?_, ih hnd.2⟩
      intro hmem
      rcases (mem_keys_mapInsert p.1 k v t).1 hmem with h1 | h1
      · exact h h1
      · exact hnd.1 h1

theorem mem_mapInsert {β : Type} {p : Nat × β} {k : Nat} {v : β} {m : List (Nat × β)}
    (hnd : (m.map Prod.fst).Nodup) :
    p ∈ mapInsert k v m ↔ p = (k, v) ∨ (p ∈ m ∧ p.1 ≠ k) := by
  induction m with
  | nil => simp [mapInsert]
  | cons q t ih =>
    simp only [List.map_cons, List.nodup_cons] at hnd
    by_cases h : q.1 = k
    · rw [mapInsert_cons_eq v t h]
      simp only [List.mem_cons]
      constructor
      · rintro (h1 | h1)
        · exact Or.inl h1
        · have hm : p.1 ∈ t.map Prod.fst := List.mem_map_of_mem Prod.fst h1
          exact Or.inr ⟨Or.inr h1, fun hh => hnd.1 (h ▸ hh ▸ hm)⟩
      · rintro (h1 | ⟨h3 | h3, h2⟩)
        · exact Or.inl h1
        · exact absurd (h3 ▸ h) h2
        · exact Or.inr h3
    · rw [mapInsert_cons_ne v t h]
      simp only [List.mem_cons, ih hnd.2]
      constructor
      · rintro (h1 | h1 | ⟨h2, h3⟩)
        · exact Or.inr ⟨Or.inl h1, h1 ▸ h⟩
        · exact Or.inl h1
        · exact Or.inr ⟨Or.inr h2, h3⟩
      · rintro (h1 | ⟨h1 | h1, h2⟩)
        · exact Or.inr (Or.inl h1)
        · exact Or.inl h1
        · exact Or.inr (Or.inr ⟨h1, h2⟩)

theorem mem_mapErase {β : Type} {p : Nat × β} {k : Nat} {m : List (Nat × β)}
    (hnd : (m.map Prod.fst).Nodup) :
    p ∈ mapErase k m ↔ p ∈ m ∧ p.1 ≠ k := by
  induction m with
  | nil => simp [mapErase]
  | cons q t ih =>
    simp only [List.map_cons, List.nodup_cons] at hnd
    by_cases h : q.1 = k
    · rw [mapErase_cons_eq t h]
      simp only [List.mem_cons]
      constructor
      · intro h1
        have hm : p.1 ∈ t.map Prod.fst := List.mem_map_of_mem Prod.fst h1
        exact ⟨Or.inr h1, fun hh => hnd.1 (h ▸ hh ▸ hm)⟩
      · rintro ⟨h1 | h1, h2⟩
        · exact absurd (h1 ▸ h) h2
        · exact h1
    · rw [mapErase_cons_ne t h]
      simp only [List.mem_cons, ih hnd.2]
      constructor
      · rintro (h1 | ⟨h1, h2⟩)
        · exact ⟨Or.inl h1, h1 ▸ h⟩
        · exact ⟨Or.inr h1, h2⟩
      · rintro ⟨h1 | h1, h2⟩
        · exact Or.inl h1
        · exact Or.inr ⟨h1, h2⟩

/-! Lemma kit for the defaulted list accessor. -/

@[simp] theorem nth_nil {α : Type} (i : Nat) (d : α) : nth [] i d = d := rfl

@[simp] theorem nth_cons_zero {α : Type} (x : α) (t : List α) (d : α) :
    nth (x :: t) 0 d = x := rfl

@[simp] theorem nth_cons_succ {α : Type} (x : α) (t : List α) (i : Nat) (d : α) :
    nth (x :: t) (i + 1) d = nth t i d := rfl

theorem nth_eq_getElem {α : Type} : ∀ (l : List α) (i : Nat) (h : i < l.length) (d : α),
    nth l i d = l[i]
  | _ :: _, 0, _, _ => rfl
  | _ :: t, i + 1, h, d => nth_eq_getElem t i (by simpa using h) d

theorem nth_append_left {α : Type} : ∀ (l₁ l₂ : List α) (i : Nat), i < l₁.length →
    ∀ d : α, nth (l₁ ++ l₂) i d = nth l₁ i d
  | _ :: _, _, 0, _, _ => rfl
  | _ :: t, l₂, i + 1, h, d => nth_append_left t l₂ i (by simpa using h) d

theorem nth_append_length {α : Type} : ∀ (l : List α) (x : α) (d : α),
    nth (l ++ [x]) l.length d = x
  | [], _, _ => rfl
  | _ :: t, x, d => nth_append_length t x d

theorem nth_set_self {α : Type} : ∀ (l : List α) (i : Nat), i < l.length →
    ∀ (v d : α), nth (l.set i v) i d = v
  | _ :: _, 0, _, _, _ => rfl
  | _ :: t, i + 1, h, v, d => nth_set_self t i (by simpa using h) v d

theorem nth_set_ne {α : Type} : ∀ (l : List α) (i j : Nat), j ≠ i →
    ∀ (v d : α), nth (l.set i v) j d = nth l j d
  | [], _, _, _, _, _ => rfl
  | _ :: _, 0, 0, h, _, _ => absurd rfl h
  | _ :: _, 0, _ + 1, _, _, _ => rfl
  | _ :: _, _ + 1, 0, _, _, _ => rfl
  | _ :: t, i + 1, j + 1, h, v, d =>
    nth_set_ne t i j (fun hh => h (by omega)) v d

theorem nth_take {α : Type} : ∀ (l : List α) (n i : Nat), i < n →
    ∀ d : α, nth (l.take n) i d = nth l i d
  | [], n, i, _, d => by rw [List.take_nil]
  | _ :: _, _ + 1, 0, _, _ => rfl
  | _ :: t, n + 1, i + 1, h, d => nth_take t n i (by omega) d

theorem nth_mem {α : Type} : ∀ (l : List α) (i : Nat), i < l.length →
    ∀ d : α, nth l i d ∈ l
  | x :: _, 0, _, _ => List.mem_cons_self x _
  | _ :: t, i + 1, h, d => List.mem_cons_of_mem _ (nth_mem t i (by simpa using h) d)

/-! Store invariants (spec section 3) and their preservation. -/

/-- All seven per-field sequences have the same length. -/
def SameLengths (r : TokenRegistry) : Prop :=
  r.name.length = r.address.length ∧ r.symbol.length = r.address.length ∧
  r.decimals.length = r.address.length ∧ r.feeOnTransferPercent.length = r.address.length ∧
  r.gasForTransfer.length = r.address.length ∧ r.id.length = r.address.length

/-- Every identifier→slot entry points at an in-range slot whose stored
identifier is the key. -/
def IdMapSound (r : TokenRegistry) : Prop :=
  ∀ p ∈ r.idToIndex, p.2 < r.address.length ∧ nth r.id p.2 0 = p.1

/-- Every slot's stored identifier maps back to that slot. -/
def IdMapComplete (r : TokenRegistry) : Prop :=
  ∀ i < r.address.length, mapLookup (nth r.id i 0) r.idToIndex = some i

/-- Every address→identifier entry describes some live slot holding that
address and identifier. -/
def AddrMapSound (r : TokenRegistry) : Prop :=
  ∀ p ∈ r.addressToID,
    ∃ i, i < r.address.length ∧ nth r.id i 0 = p.2 ∧ nth r.address i 0 = p.1

/-- Every slot's address maps to that slot's identifier. -/
def AddrMapComplete (r : TokenRegistry) : Prop :=
  ∀ i < r.address.length, mapLookup (nth r.address i 0) r.addressToID = some (nth r.id i 0)

/-- Structural store invariants: dense parallel sequences coherently
indexed by the two maps, whose key lists are duplicate-free. -/
def Inv (r : TokenRegistry) : Prop :=
  SameLengths r ∧ (r.idToIndex.map Prod.fst).Nodup ∧
  (r.addressToID.map Prod.fst).Nodup ∧
  IdMapSound r ∧ IdMapComplete r ∧ AddrMapSound r ∧ AddrMapComplete r

/-- Structural invariants plus the counter dominating every live
identifier (what a wrap of the uint64 counter would break). -/
def StrongInv (r : TokenRegistry) : Prop :=
  Inv r ∧ ∀ k ∈ r.id, k < r.nextID

instance decSameLengths (r : TokenRegistry) : Decidable (SameLengths r) := by
  unfold SameLengths
  infer_instance

instance decInv (r : TokenRegistry) : Decidable (Inv r) := by
  unfold Inv SameLengths IdMapSound IdMapComplete AddrMapSound AddrMapComplete
  infer_instance

instance decStrongInv (r : TokenRegistry) : Decidable (StrongInv r) := by
  unfold StrongInv
  infer_instance

example : StrongInv NewTokenRegistry := by decide

theorem lookup_idToIndex_spec {r : TokenRegistry} {k i : Nat} (h : Inv r)
    (hl : mapLookup k r.idToIndex = some i) :
    i < r.address.length ∧ nth r.id i 0 = k :=
  h.2.2.2.1 (k, i) (mem_of_mapLookup_eq_some hl)

theorem nth_id_inj {r : TokenRegistry} (h : Inv r) {i j : Nat}
    (hi : i < r.address.length) (hj : j < r.address.length)
    (he : nth r.id i 0 = nth r.id j 0) : i = j := by
  have h1 := h.2.2.2.2.1 i hi
  have h2 := h.2.2.2.2.1 j hj
  rw [he, h2] at h1
  exact (Option.some.inj h1).symm

theorem nth_address_inj {r : TokenRegistry} (h : Inv r) {i j : Nat}
    (hi : i < r.address.length) (hj : j < r.address.length)
    (he : nth r.address i 0 = nth r.address j 0) : i = j := by
  have h1 := h.2.2.2.2.2.2 i hi
  have h2 := h.2.2.2.2.2.2 j hj
  rw [he, h2] at h1
  exact nth_id_inj h hi hj (Option.some.inj h1).symm

theorem id_nodup_of_inv {r : TokenRegistry} (h : Inv r) : r.id.Nodup := by
  have hLen : r.id.length = r.address.length := h.1.2.2.2.2.2
  rw [List.nodup_iff_injective_getElem]
  intro ⟨i, hi⟩ ⟨j, hj⟩ he
  simp only at he
  rw [← nth_eq_getElem r.id i hi 0, ← nth_eq_getElem r.id j hj 0] at he
  exact Fin.ext (nth_id_inj h (hLen ▸ hi) (hLen ▸ hj) he)

theorem address_nodup_of_inv {r : TokenRegistry} (h : Inv r) : r.address.Nodup := by
  rw [List.nodup_iff_injective_getElem]
  intro ⟨i, hi⟩ ⟨j, hj⟩ he
  simp only at he
  rw [← nth_eq_getElem r.address i hi 0, ← nth_eq_getElem r.address j hj 0] at he
  exact Fin.ext (nth_address_inj h hi hj he)

theorem nextID_not_live {r : TokenRegistry} (h : StrongInv r) :
    mapLookup r.nextID r.idToIndex = none := by
  apply mapLookup_eq_none_of_not_mem_keys
  intro hmem
  rcases List.mem_map.1 hmem with ⟨p, hp, hfst⟩
  have hs := h.1.2.2.2.1 p hp
  have hlen : r.id.length = r.address.length := h.1.1.2.2.2.2.2
  have : p.1 ∈ r.id := hs.2 ▸ nth_mem r.id p.2 (hlen ▸ hs.1) 0
  have := h.2 p.1 this
  omega

/-- Preservation of the invariants by addToken, as long as the uint64
counter does not wrap. -/
theorem addToken_strongInv (a : Nat) (nm sy : String) (dm : Nat) (r : TokenRegistry)
    (h : StrongInv r) (hb : r.nextID + 1 < U64) :
    StrongInv (addToken a nm sy dm r).2 := by
  rcases hl : mapLookup a r.addressToID with _ | id0
  · -- fresh address: the record is appended
    obtain ⟨⟨hLen, hIdNd, hAddrNd, hIdS, hIdC, hAdS, hAdC⟩, hCtr⟩ := h
    have hIdLen : r.id.length = r.address.length := hLen.2.2.2.2.2
    have hFreshId : ∀ k ∈ r.id, k ≠ r.nextID := fun k hk => by
      have := hCtr k hk
      omega
    simp only [addToken, hl]
    set len := r.address.length with hlen
    refine ⟨⟨?_, ?_, ?_, ?_, ?_, ?_, ?_⟩, ?_⟩
    · -- SameLengths
      simp [SameLengths, hLen.1, hLen.2.1, hLen.2.2.1, hLen.2.2.2.1, hLen.2.2.2.2.1, hIdLen]
    · exact keys_nodup_mapInsert _ hIdNd
    · exact keys_nodup_mapInsert _ hAddrNd
    · -- IdMapSound
      intro p hp
      simp only [List.length_append, List.length_cons, List.length_nil]
      rcases (mem_mapInsert hIdNd).1 hp with h1 | ⟨h1, h2⟩
      · subst h1
        constructor
        · omega
        · have : r.id.length = len := hIdLen
          rw [← this, nth_append_length]
      · have hs := hIdS p h1
        constructor
        · omega
        · rw [nth_append_left r.id [r.nextID] p.2 (hIdLen ▸ hs.1) 0, hs.2]
    · -- IdMapComplete
      intro i hi
      simp only [List.length_append, List.length_cons, List.length_nil] at hi
      rcases Nat.lt_or_ge i len with h1 | h1
      · rw [nth_append_left r.id [r.nextID] i (hIdLen ▸ h1) 0]
        have hne : nth r.id i 0 ≠ r.nextID :=
          hFreshId _ (nth_mem r.id i (hIdLen ▸ h1) 0)
        rw [mapLookup_insert_ne _ _ hne]
        exact hIdC i h1
      · have hi' : i = len := by omega
        subst hi'
        rw [← hIdLen, nth_append_length, mapLookup_insert_self, hIdLen]
    · -- AddrMapSound
      intro p hp
      simp only [List.length_append, List.length_cons, List.length_nil]
      rcases (mem_mapInsert hAddrNd).1 hp with h1 | ⟨h1, h2⟩
      · subst h1
        refine ⟨len, by omega, ?_, ?_⟩
        · rw [← hIdLen, nth_append_length]
        · rw [nth_append_length]
      · obtain ⟨i, hi, hidv, haddv⟩ := hAdS p h1
        refine ⟨i, by omega, ?_, ?_⟩
        · rw [nth_append_left r.id [r.nextID] i (hIdLen ▸ hi) 0, hidv]
        · rw [nth_append_left r.address [a] i hi 0, haddv]
    · -- AddrMapComplete
      intro i hi
      simp only [List.length_append, List.length_cons, List.length_nil] at hi
      rcases Nat.lt_or_ge i len with h1 | h1
      · rw [nth_append_left r.address [a] i h1 0, nth_append_left r.id [r.nextID] i (hIdLen ▸ h1) 0]
        have hne : nth r.address i 0 ≠ a := by
          intro he
          have := hAdC i h1
          rw [he, hl] at this
          exact Option.noConfusion this
        rw [mapLookup_insert_ne _ _ hne]
        exact hAdC i h1
      · have hi' : i = len := by omega
        subst hi'
        rw [nth_append_length, ← hIdLen, nth_append_length, mapLookup_insert_self]
    · -- counter bound
      intro k hk
      have hmod : (r.nextID + 1) % U64 = r.nextID + 1 := Nat.mod_eq_of_lt hb
      rcases List.mem_append.1 hk with h1 | h1
      · have := hCtr k h1
        simp only [hmod]
        omega
      · simp only [List.mem_cons, List.not_mem_nil, or_false] at h1
        subst h1
        simp only [hmod]
        omega
  · -- address already present: nothing changes
    simp only [addToken, hl]
    exact h

/-- Preservation of the structural invariants by deleteToken. -/
theorem deleteToken_inv (did : Nat) (r : TokenRegistry) (h : Inv r) :
    Inv (deleteToken did r).2 := by
  rcases hl : mapLookup did r.idToIndex with _ | i
  · simpa only [deleteToken, hl] using h
  obtain ⟨hLen, hIdNd, hAddrNd, hIdS, hIdC, hAdS, hAdC⟩ := h
  have hInv : Inv r := ⟨hLen, hIdNd, hAddrNd, hIdS, hIdC, hAdS, hAdC⟩
  have hIdLen : r.id.length = r.address.length := hLen.2.2.2.2.2
  have hi : i < r.address.length := (hIdS (did, i) (mem_of_mapLookup_eq_some hl)).1
  have hid : nth r.id i 0 = did := (hIdS (did, i) (mem_of_mapLookup_eq_some hl)).2
  have hlen1 : 1 ≤ r.address.length := by omega
  by_cases hne : i ≠ r.address.length - 1
  · -- swap-and-pop with an actual swap
    have hilt : i < r.address.length - 1 := by omega
    have hdidlast : did ≠ nth r.id (r.address.length - 1) 0 := by
      intro he
      have h1 := hIdC (r.address.length - 1) (by omega)
      rw [← he, hl] at h1
      have := Option.some.inj h1
      omega
    have hndI :
        ((mapInsert (nth r.id (r.address.length - 1) 0) i r.idToIndex).map Prod.fst).Nodup :=
      keys_nodup_mapInsert _ hIdNd
    simp only [deleteToken, hl, if_pos hne]
    refine ⟨?_, ?_, ?_, ?_, ?_, ?_, ?_⟩
    · simp only [SameLengths, List.length_take, List.length_set, hLen.1, hLen.2.1,
        hLen.2.2.1, hLen.2.2.2.1, hLen.2.2.2.2.1, hIdLen]
      exact ⟨trivial, trivial, trivial, trivial, trivial, trivial⟩
    · exact keys_nodup_mapErase hndI
    · exact keys_nodup_mapErase hAddrNd
    · -- IdMapSound
      intro p hp
      obtain ⟨pk, pv⟩ := p
      have h1 := (mem_mapErase hndI).1 hp
      have h1b : pk ≠ did := h1.2
      simp only [List.length_take, List.length_set, hIdLen]
      rcases (mem_mapInsert hIdNd).1 h1.1 with h2 | ⟨h2, h3⟩
      · injection h2 with h2a h2b
        subst h2a
        rw [h2b]
        refine ⟨by omega, ?_⟩
        rw [nth_take _ _ _ hilt, nth_set_self r.id i (by omega)]
      · have h3b : pk ≠ nth r.id (r.address.length - 1) 0 := h3
        have h4 : pv < r.address.length := (hIdS (pk, pv) h2).1
        have h5 : nth r.id pv 0 = pk := (hIdS (pk, pv) h2).2
        have hpne : pv ≠ i := by
          intro he
          rw [he, hid] at h5
          exact h1b h5.symm
        have hplast : pv ≠ r.address.length - 1 := by
          intro he
          rw [he] at h5
          exact h3b h5.symm
        refine ⟨by omega, ?_⟩
        rw [nth_take _ _ _ (by omega), nth_set_ne r.id i pv hpne, h5]
    · -- IdMapComplete
      intro j hj
      simp only [List.length_take, List.length_set, hIdLen] at hj
      have hj2 : j < r.address.length - 1 := by omega
      by_cases hji : j = i
      · subst hji
        rw [nth_take _ _ _ hj2, nth_set_self r.id j (by omega),
          mapLookup_erase_ne _ (Ne.symm hdidlast), mapLookup_insert_self]
      · rw [nth_take _ _ _ hj2, nth_set_ne r.id i j hji]
        have hkd : nth r.id j 0 ≠ did := by
          intro he
          rw [← hid] at he
          exact hji (nth_id_inj hInv (by omega) (by omega) he)
        have hkl : nth r.id j 0 ≠ nth r.id (r.address.length - 1) 0 := by
          intro he
          have := nth_id_inj hInv (by omega) (by omega) he
          omega
        rw [mapLookup_erase_ne _ hkd, mapLookup_insert_ne _ _ hkl]
        exact hIdC j (by omega)
    · -- AddrMapSound
      intro p hp
      have h1 := (mem_mapErase hAddrNd).1 hp
      obtain ⟨j, hj, hjid, hjaddr⟩ := hAdS p h1.1
      simp only [List.length_take, List.length_set, hIdLen]
      have hji : j ≠ i := by
        intro he
        rw [he] at hjaddr
        exact h1.2 hjaddr.symm
      by_cases hjlast : j = r.address.length - 1
      · refine ⟨i, by omega, ?_, ?_⟩
        · rw [nth_take _ _ _ hilt, nth_set_self r.id i (by omega), ← hjlast]
          exact hjid
        · rw [nth_take _ _ _ hilt, nth_set_self r.address i (by omega), ← hjlast]
          exact hjaddr
      · refine ⟨j, by omega, ?_, ?_⟩
        · rw [nth_take _ _ _ (by omega), nth_set_ne r.id i j hji]
          exact hjid
        · rw [nth_take _ _ _ (by omega), nth_set_ne r.address i j hji]
          exact hjaddr
    · -- AddrMapComplete
      intro j hj
      simp only [List.length_take, List.length_set, hIdLen] at hj ⊢
      have hj2 : j < r.address.length - 1 := by omega
      by_cases hji : j = i
      · subst hji
        rw [nth_take _ _ _ hj2, nth_take _ _ _ hj2, nth_set_self r.address j (by omega),
          nth_set_self r.id j (by omega)]
        have hane : nth r.address (r.address.length - 1) 0 ≠ nth r.address j 0 := by
          intro he
          have := nth_address_inj hInv (by omega) (by omega) he
          omega
        rw [mapLookup_erase_ne _ hane]
        exact hAdC (r.address.length - 1) (by omega)
      · rw [nth_take _ _ _ hj2, nth_take _ _ _ hj2, nth_set_ne r.address i j hji,
          nth_set_ne r.id i j hji]
        have hane : nth r.address j 0 ≠ nth r.address i 0 := by
          intro he
          exact hji (nth_address_inj hInv (by omega) (by omega) he)
        rw [mapLookup_erase_ne _ hane]
        exact hAdC j (by omega)
  · -- the deleted slot is the last slot: plain pop
    push_neg at hne
    simp only [deleteToken, hl, if_neg (fun hh => hh hne : ¬i ≠ r.address.length - 1)]
    refine ⟨?_, ?_, ?_, ?_, ?_, ?_, ?_⟩
    · simp only [SameLengths, List.length_take, hLen.1, hLen.2.1,
        hLen.2.2.1, hLen.2.2.2.1, hLen.2.2.2.2.1, hIdLen]
      exact ⟨trivial, trivial, trivial, trivial, trivial, trivial⟩
    · exact keys_nodup_mapErase hIdNd
    · exact keys_nodup_mapErase hAddrNd
    · -- IdMapSound
      intro p hp
      have h1 := (mem_mapErase hIdNd).1 hp
      have h4 : p.2 < r.address.length := (hIdS p h1.1).1
      have h5 : nth r.id p.2 0 = p.1 := (hIdS p h1.1).2
      simp only [List.length_take, hIdLen]
      have hplast : p.2 ≠ r.address.length - 1 := by
        intro he
        rw [he, ← hne, hid] at h5
        exact h1.2 h5.symm
      refine ⟨by omega, ?_⟩
      rw [nth_take _ _ _ (by omega)]
      exact h5
    · -- IdMapComplete
      intro j hj
      simp only [List.length_take, hIdLen] at hj
      have hj2 : j < r.address.length - 1 := by omega
      rw [nth_take _ _ _ hj2]
      have hkd : nth r.id j 0 ≠ did := by
        intro he
        rw [← hid] at he
        have := nth_id_inj hInv (by omega) (by omega) he
        omega
      rw [mapLookup_erase_ne _ hkd]
      exact hIdC j (by omega)
    · -- AddrMapSound
      intro p hp
      have h1 := (mem_mapErase hAddrNd).1 hp
      obtain ⟨j, hj, hjid, hjaddr⟩ := hAdS p h1.1
      simp only [List.length_take, hIdLen]
      have hjlast : j ≠ r.address.length - 1 := by
        intro he
        rw [he, ← hne] at hjaddr
        exact h1.2 hjaddr.symm
      refine ⟨j, by omega, ?_, ?_⟩
      · rw [nth_take _ _ _ (by omega)]
        exact hjid
      · rw [nth_take _ _ _ (by omega)]
        exact hjaddr
    · -- AddrMapComplete
      intro j hj
      simp only [List.length_take, hIdLen] at hj ⊢
      have hj2 : j < r.address.length - 1 := by omega
      rw [nth_take _ _ _ hj2, nth_take _ _ _ hj2]
      have hane : nth r.address j 0 ≠ nth r.address i 0 := by
        intro he
        have := nth_address_inj hInv (by omega) (by omega) he
        omega
      rw [mapLookup_erase_ne _ hane]
      exact hAdC j (by omega)

/-- deleteToken never touches the identifier counter. -/
theorem deleteToken_nextID (did : Nat) (r : TokenRegistry) :
    (deleteToken did r).2.nextID = r.nextID := by
  rcases hl : mapLookup did r.idToIndex with _ | i
  · simp [deleteToken, hl]
  · by_cases hne : i ≠ r.address.length - 1
    · simp [deleteToken, hl, if_pos hne]
    · simp [deleteToken, hl, if_neg hne]

/-- On an invariant-satisfying state, deleteToken only keeps identifiers
that were already live. -/
theorem deleteToken_id_subset (did : Nat) (r : TokenRegistry) (h : Inv r) {k : Nat}
    (hk : k ∈ (deleteToken did r).2.id) : k ∈ r.id := by
  rcases hl : mapLookup did r.idToIndex with _ | i
  · simp only [deleteToken, hl] at hk
    exact hk
  · have hIdLen : r.id.length = r.address.length := h.1.2.2.2.2.2
    have hi : i < r.address.length := (lookup_idToIndex_spec h hl).1
    by_cases hne : i ≠ r.address.length - 1
    · simp only [deleteToken, hl, if_pos hne] at hk
      have h1 := List.take_subset _ _ hk
      rcases List.mem_or_eq_of_mem_set h1 with h2 | h2
      · exact h2
      · exact h2 ▸ nth_mem r.id (r.address.length - 1) (by omega) 0
    · simp only [deleteToken, hl, if_neg hne] at hk
      exact List.take_subset _ _ hk

/-- Preservation of the full invariant bundle by deleteToken. -/
theorem deleteToken_strongInv (did : Nat) (r : TokenRegistry) (h : StrongInv r) :
    StrongInv (deleteToken did r).2 := by
  refine ⟨deleteToken_inv did r h.1, ?_⟩
  intro k hk
  rw [deleteToken_nextID]
  exact h.2 k (deleteToken_id_subset did r h.1 hk)

/-- When the counter cannot wrap, addToken advances it by at most one. -/
theorem addToken_nextID_le (a : Nat) (nm sy : String) (dm : Nat) (r : TokenRegistry)
    (hb : r.nextID + 1 < U64) :
    (addToken a nm sy dm r).2.nextID ≤ r.nextID + 1 := by
  rcases hl : mapLookup a r.addressToID with _ | x
  · simp only [addToken, hl]
    rw [Nat.mod_eq_of_lt hb]
  · simp only [addToken, hl]
    omega

@[simp] theorem run_nil (r : TokenRegistry) : run [] r = r := rfl

theorem run_cons (op : Op) (rest : List Op) (r : TokenRegistry) :
    run (op :: rest) r = run rest (applyOp op r) := rfl

theorem run_append (l₁ l₂ : List Op) (r : TokenRegistry) :
    run (l₁ ++ l₂) r = run l₂ (run l₁ r) := by
  simp [run, List.foldl_append]

/-- The invariants hold after any operation sequence short enough that
the uint64 counter cannot wrap. -/
theorem run_strongInv : ∀ (ops : List Op) (r : TokenRegistry), StrongInv r →
    r.nextID + ops.length < U64 →
    StrongInv (run ops r) ∧ (run ops r).nextID ≤ r.nextID + ops.length := by
  intro ops
  induction ops with
  | nil =>
    intro r h _
    exact ⟨h, by simp⟩
  | cons op rest ih =>
    intro r h hb
    rw [run_cons]
    simp only [List.length_cons] at hb
    cases op with
    | insert a nm sy dm =>
      have hb1 : r.nextID + 1 < U64 := by omega
      have h1 : StrongInv (addToken a nm sy dm r).2 := addToken_strongInv a nm sy dm r h hb1
      have h2 : (addToken a nm sy dm r).2.nextID ≤ r.nextID + 1 :=
        addToken_nextID_le a nm sy dm r hb1
      have h3 := ih (addToken a nm sy dm r).2 h1 (by omega)
      exact ⟨h3.1, by have := h3.2; simp only [applyOp, List.length_cons]; omega⟩
    | delete did =>
      have h1 : StrongInv (deleteToken did r).2 := deleteToken_strongInv did r h
      have h2 : (deleteToken did r).2.nextID = r.nextID := deleteToken_nextID did r
      have h3 := ih (deleteToken did r).2 h1 (by omega)
      exact ⟨h3.1, by have := h3.2; simp only [applyOp, List.length_cons]; omega⟩

/-- Density property claimed by the spec: all per-field sequences share
one length, and each slot index below that length is reachable from
exactly one identifier key of the identifier→slot map, namely the
identifier stored in that slot. -/
def DensityInv (r : TokenRegistry) : Prop :=
  SameLengths r ∧
  ∀ i < r.address.length, ∀ k, (mapLookup k r.idToIndex = some i ↔ k = nth r.id i 0)

theorem densityInv_of_inv {r : TokenRegistry} (h : Inv r) : DensityInv r := by
  refine ⟨h.1, ?_⟩
  intro i hi k
  constructor
  · intro hlk
    have h5 : nth r.id i 0 = k := (h.2.2.2.1 (k, i) (mem_of_mapLookup_eq_some hlk)).2
    exact h5.symm
  · intro hk
    subst hk
    exact h.2.2.2.2.1 i hi

/-! Claim C1: density after arbitrary insert/delete sequences. -/

/-- C1 (amended): after any sequence of fewer than 2^64 − 1 insert and
delete operations starting from the empty registry, all seven per-field
sequences have equal length, and every index in [0, length) is mapped to
by exactly one live identifier in the identifier-to-slot mapping — the
identifier stored in that slot.  (The bound keeps the uint64 identifier
counter from wrapping; without it the invariant can break, see the
counterexample.) -/
theorem C1_density_after_run (ops : List Op) (hb : ops.length < U64 - 1) :
    DensityInv (run ops NewTokenRegistry) := by
  have hU : U64 = 18446744073709551616 := by norm_num [U64]
  have h0 : StrongInv NewTokenRegistry := by decide
  have h1 := run_strongInv ops NewTokenRegistry h0 (by
    show 1 + ops.length < U64
    omega)
  exact densityInv_of_inv h1.1.1

/-- Witness for C1 on a concrete operation sequence. -/
theorem C1_density_after_run_witness :
    DensityInv (run [Op.insert 5 "tokenA" "TKA" 18, Op.insert 6 "tokenB" "TKB" 8,
      Op.delete 1, Op.insert 7 "tokenC" "TKC" 6] NewTokenRegistry) :=
  C1_density_after_run _ (by norm_num [U64])

/-- Insert-then-delete cycles: with counter value n at the start, each
cycle inserts address 7 (returning the then-current counter value) and
immediately deletes that identifier, leaving only the counter advanced. -/
def cyc : Nat → Nat → List Op
  | _, 0 => []
  | n, k + 1 => Op.insert 7 "" "" 0 :: Op.delete n :: cyc ((n + 1) % U64) k

/-- Empty registry whose counter holds n. -/
def emptyWithNext (n : Nat) : TokenRegistry :=
  { address := [], name := [], symbol := [], decimals := []
    feeOnTransferPercent := [], gasForTransfer := [], id := []
    nextID := n, idToIndex := [], addressToID := [] }

/-- Registry holding exactly one record (address 5, identifier 1 in
slot 0) whose counter holds n. -/
def oneWithNext (n : Nat) : TokenRegistry :=
  { address := [5], name := ["a"], symbol := ["A"], decimals := [18]
    feeOnTransferPercent := [0], gasForTransfer := [0], id := [1]
    nextID := n, idToIndex := [(1, 0)], addressToID := [(5, 1)] }

theorem step_cycle_empty (n : Nat) :
    applyOp (Op.delete n) (applyOp (Op.insert 7 "" "" 0) (emptyWithNext n)) =
      emptyWithNext ((n + 1) % U64) := by
  simp [applyOp, addToken, deleteToken, emptyWithNext, mapInsert, mapErase, mapLookup]

theorem step_cycle_one (n : Nat) (hn1 : n ≠ 1) :
    applyOp (Op.delete n) (applyOp (Op.insert 7 "" "" 0) (oneWithNext n)) =
      oneWithNext ((n + 1) % U64) := by
  have hn1s : (1 : Nat) ≠ n := Ne.symm hn1
  simp [applyOp, addToken, deleteToken, oneWithNext, mapInsert, mapErase, mapLookup, hn1s]

theorem run_cyc_empty : ∀ (k n : Nat), n < U64 →
    run (cyc n k) (emptyWithNext n) = emptyWithNext ((n + k) % U64) := by
  intro k
  induction k with
  | zero =>
    intro n hn
    simp [cyc, Nat.mod_eq_of_lt hn]
  | succ k ih =>
    intro n hn
    show run (Op.insert 7 "" "" 0 :: Op.delete n :: cyc ((n + 1) % U64) k) _ = _
    rw [run_cons, run_cons, step_cycle_empty n,
      ih ((n + 1) % U64) (Nat.mod_lt _ (by norm_num [U64]))]
    rw [Nat.mod_add_mod, (by omega : n + 1 + k = n + (k + 1))]

theorem run_cyc_one : ∀ (k n : Nat), n < U64 → (∀ j < k, (n + j) % U64 ≠ 1) →
    run (cyc n k) (oneWithNext n) = oneWithNext ((n + k) % U64) := by
  intro k
  induction k with
  | zero =>
    intro n hn _
    simp [cyc, Nat.mod_eq_of_lt hn]
  | succ k ih =>
    intro n hn hno
    have hn1 : n ≠ 1 := by
      have := hno 0 (by omega)
      rwa [Nat.add_zero, Nat.mod_eq_of_lt hn] at this
    show run (Op.insert 7 "" "" 0 :: Op.delete n :: cyc ((n + 1) % U64) k) _ = _
    rw [run_cons, run_cons, step_cycle_one n hn1,
      ih ((n + 1) % U64) (Nat.mod_lt _ (by norm_num [U64])) (by
        intro j hj
        rw [Nat.mod_add_mod, (by omega : n + 1 + j = n + (j + 1))]
        exact hno (j + 1) (by omega))]
    rw [Nat.mod_add_mod, (by omega : n + 1 + k = n + (k + 1))]

/-- Registry state reached by the C1 counterexample sequence: identifier
1 occurs in two slots but only one identifier-to-slot entry exists, so
slot 0 is unreachable. -/
def badRegistry : TokenRegistry :=
  { address := [5, 9], name := ["a", ""], symbol := ["A", ""], decimals := [18, 0]
    feeOnTransferPercent := [0, 0], gasForTransfer := [0, 0], id := [1, 1]
    nextID := 2, idToIndex := [(1, 1)], addressToID := [(5, 1), (9, 1)] }

/-- C1 counterexample: the concrete sequence of one insert, then 2^64 − 1
insert/delete cycles (which drive the uint64 counter all the way around
its range), then one more insert, ends in a state where slot 0 is mapped
to by no identifier: the claim fails without a bound on the number of
operations. -/
theorem C1_counterexample :
    ¬ DensityInv (run (Op.insert 5 "a" "A" 18 ::
      (cyc 2 (U64 - 1) ++ [Op.insert 9 "" "" 0])) NewTokenRegistry) := by
  have hU : U64 = 18446744073709551616 := by norm_num [U64]
  have h1 : applyOp (Op.insert 5 "a" "A" 18) NewTokenRegistry = oneWithNext 2 := by decide
  have h2 : run (cyc 2 (U64 - 1)) (oneWithNext 2) =
      oneWithNext ((2 + (U64 - 1)) % U64) := by
    refine run_cyc_one (U64 - 1) 2 (by omega) ?_
    intro j hj
    rcases Nat.lt_or_ge (2 + j) U64 with h | h
    · rw [Nat.mod_eq_of_lt h]
      omega
    · have h2j : 2 + j = U64 := by omega
      rw [h2j, Nat.mod_self]
      omega
  have h3 : (2 + (U64 - 1)) % U64 = 1 := by
    have he : 2 + (U64 - 1) = U64 + 1 := by omega
    rw [he, Nat.add_mod_left, Nat.mod_eq_of_lt (by omega)]
  have h4 : run [Op.insert 9 "" "" 0] (oneWithNext 1) = badRegistry := by decide
  rw [run_cons, h1, run_append, h2, h3, h4]
  intro hD
  have h5 : mapLookup 1 badRegistry.idToIndex = some 0 :=
    (hD.2 0 (by decide) 1).2 rfl
  exact absurd h5 (by decide)

/-! Claim C4: identifiers returned by successful inserts. -/

theorem runIds_append (l1 l2 : List Op) (r : TokenRegistry) :
    runIds (l1 ++ l2) r = runIds l1 r ++ runIds l2 (run l1 r) := by
  induction l1 generalizing r with
  | nil => simp [runIds]
  | cons op t ih =>
    simp [runIds, run_cons, ih, List.append_assoc]

/-- Successful inserts return exactly the consecutive counter values, as
long as the counter cannot wrap. -/
theorem runIds_range : ∀ (ops : List Op) (r : TokenRegistry),
    r.nextID + ops.length < U64 →
    runIds ops r = List.range' r.nextID (runIds ops r).length ∧
    (run ops r).nextID = r.nextID + (runIds ops r).length := by
  intro ops
  induction ops with
  | nil =>
    intro r _
    simp [runIds]
  | cons op rest ih =>
    intro r hb
    simp only [List.length_cons] at hb
    cases op with
    | insert a nm sy dm =>
      rcases hl : mapLookup a r.addressToID with _ | x
      · have hmod : (r.nextID + 1) % U64 = r.nextID + 1 := Nat.mod_eq_of_lt (by omega)
        have hres : opResultId (Op.insert a nm sy dm) r = some r.nextID := by
          simp [opResultId, addToken, hl, Except.toOption]
        have hstate : (applyOp (Op.insert a nm sy dm) r).nextID = r.nextID + 1 := by
          simp [applyOp, addToken, hl, hmod]
        have ihh := ih (applyOp (Op.insert a nm sy dm) r) (by rw [hstate]; omega)
        have hru : runIds (Op.insert a nm sy dm :: rest) r =
            r.nextID :: runIds rest (applyOp (Op.insert a nm sy dm) r) := by
          simp [runIds, hres]
        refine ⟨?_, ?_⟩
        · rw [hru, List.length_cons, List.range'_succ]
          congr 1
          have ih1 := ihh.1
          rw [hstate] at ih1
          exact ih1
        · rw [run_cons, hru, List.length_cons]
          have ih2 := ihh.2
          rw [hstate] at ih2
          omega
      · have hres : opResultId (Op.insert a nm sy dm) r = none := by
          simp [opResultId, addToken, hl, Except.toOption]
        have hstate : applyOp (Op.insert a nm sy dm) r = r := by
          simp [applyOp, addToken, hl]
        have hru : runIds (Op.insert a nm sy dm :: rest) r = runIds rest r := by
          simp [runIds, hres, hstate]
        have ihh := ih r (by omega)
        refine ⟨?_, ?_⟩
        · rw [hru]
          exact ihh.1
        · rw [run_cons, hstate, hru]
          exact ihh.2
    | delete did =>
      have hres : opResultId (Op.delete did) r = none := rfl
      have hnext : (applyOp (Op.delete did) r).nextID = r.nextID := deleteToken_nextID did r
      have hru : runIds (Op.delete did :: rest) r =
          runIds rest (applyOp (Op.delete did) r) := by
        simp [runIds, hres]
      have ihh := ih (applyOp (Op.delete did) r) (by rw [hnext]; omega)
      refine ⟨?_, ?_⟩
      · rw [hru]
        have ih1 := ihh.1
        rw [hnext] at ih1
        exact ih1
      · rw [run_cons, hru]
        have ih2 := ihh.2
        rw [hnext] at ih2
        omega

/-- C4 (amended): identifiers are assigned from a counter starting at 1
that advances by exactly one (modulo 2^64) on each successful insert
regardless of prior deletions; over any sequence of fewer than
2^64 − 1 operations, the successful inserts return exactly the
consecutive identifiers 1, 2, 3, … in order, so no identifier is ever
returned twice.  (Beyond that bound the uint64 counter wraps and an
already-assigned identifier is returned again, see the
counterexample.) -/
theorem C4_insert_ids (ops : List Op) (hb : ops.length < U64 - 1) :
    runIds ops NewTokenRegistry =
      List.range' 1 (runIds ops NewTokenRegistry).length ∧
    (run ops NewTokenRegistry).nextID = 1 + (runIds ops NewTokenRegistry).length := by
  have hU : U64 = 18446744073709551616 := by norm_num [U64]
  exact runIds_range ops NewTokenRegistry (by show 1 + ops.length < U64; omega)

/-- Witness for C4 on a concrete sequence with a deletion and a failing
insert in the middle. -/
theorem C4_insert_ids_witness :
    runIds [Op.insert 5 "a" "A" 18, Op.insert 6 "b" "B" 8, Op.delete 1,
        Op.insert 5 "c" "C" 6, Op.insert 6 "d" "D" 2] NewTokenRegistry =
      List.range' 1 (runIds [Op.insert 5 "a" "A" 18, Op.insert 6 "b" "B" 8, Op.delete 1,
        Op.insert 5 "c" "C" 6, Op.insert 6 "d" "D" 2] NewTokenRegistry).length ∧
    (run [Op.insert 5 "a" "A" 18, Op.insert 6 "b" "B" 8, Op.delete 1,
        Op.insert 5 "c" "C" 6, Op.insert 6 "d" "D" 2] NewTokenRegistry).nextID =
      1 + (runIds [Op.insert 5 "a" "A" 18, Op.insert 6 "b" "B" 8, Op.delete 1,
        Op.insert 5 "c" "C" 6, Op.insert 6 "d" "D" 2] NewTokenRegistry).length :=
  C4_insert_ids _ (by norm_num [U64])

/-- C4 counterexample: after 2^64 insert/delete cycles from the empty
registry the uint64 counter has wrapped back to 1, and one more insert
returns identifier 1 a second time — the successful-insert identifiers
of this concrete operation sequence contain a duplicate. -/
theorem C4_counterexample :
    ¬ (runIds (cyc 1 U64 ++ [Op.insert 7 "" "" 0]) NewTokenRegistry).Nodup := by
  have hU : U64 = 18446744073709551616 := by norm_num [U64]
  have hsplit : cyc 1 U64 =
      Op.insert 7 "" "" 0 :: Op.delete 1 :: cyc ((1 + 1) % U64) (U64 - 1) := by
    conv_lhs => rw [(by omega : U64 = (U64 - 1) + 1)]
    rfl
  have hL : runIds (cyc 1 U64) NewTokenRegistry =
      1 :: runIds (Op.delete 1 :: cyc ((1 + 1) % U64) (U64 - 1))
        (applyOp (Op.insert 7 "" "" 0) NewTokenRegistry) := by
    rw [hsplit]
    rfl
  have hrun : run (cyc 1 U64) NewTokenRegistry = emptyWithNext 1 := by
    rw [show NewTokenRegistry = emptyWithNext 1 from rfl,
      run_cyc_empty U64 1 (by omega)]
    rw [Nat.add_comm 1 U64, Nat.add_mod_left, Nat.mod_eq_of_lt (by omega)]
  have hlast : runIds [Op.insert 7 "" "" 0] (emptyWithNext 1) = [1] := by decide
  rw [runIds_append, hrun, hlast, hL]
  intro h
  rw [List.cons_append] at h
  have h1 := (List.nodup_cons.1 h).1
  exact h1 (List.mem_append.2 (Or.inr (List.mem_singleton.2 rfl)))

/-! Claim C3: insert on a live address fails without any state change. -/

/-- C3: for every registry state and every insert whose address is
already a key of the address→identifier map, addToken returns the
already-exists error and the entire registry state — all sequences,
both mappings, and the identifier counter — is returned unchanged. -/
theorem C3_insert_existing_address (r : TokenRegistry) (a : Nat) (nm sy : String)
    (dm id0 : Nat) (hl : mapLookup a r.addressToID = some id0) :
    addToken a nm sy dm r = (.error .alreadyExists, r) := by
  simp [addToken, hl]

/-- Witness for C3: re-inserting address 5 into a registry that holds it
fails and returns the registry intact. -/
theorem C3_insert_existing_address_witness :
    addToken 5 "x" "X" 9 (run [Op.insert 5 "a" "A" 18] NewTokenRegistry) =
      (.error .alreadyExists, run [Op.insert 5 "a" "A" 18] NewTokenRegistry) :=
  C3_insert_existing_address _ 5 "x" "X" 9 1 (by decide)

/-! Claim C2: swap-and-pop delete correctness on a non-last slot. -/

/-- What the spec promises of deleting a non-last slot i holding
identifier did: every sequence is truncated by one; the formerly-last
record's seven field values now sit in slot i; the relocated record's
identifier→slot entry points at i; both index entries of the deleted
record are gone; and every other live record keeps its slot index and
its seven field values. -/
def DeleteSwapsLastSpec (r r' : TokenRegistry) (did i : Nat) : Prop :=
  (r'.address.length = r.address.length - 1 ∧
   r'.name.length = r.address.length - 1 ∧
   r'.symbol.length = r.address.length - 1 ∧
   r'.decimals.length = r.address.length - 1 ∧
   r'.feeOnTransferPercent.length = r.address.length - 1 ∧
   r'.gasForTransfer.length = r.address.length - 1 ∧
   r'.id.length = r.address.length - 1) ∧
  (nth r'.address i 0 = nth r.address (r.address.length - 1) 0 ∧
   nth r'.name i "" = nth r.name (r.address.length - 1) "" ∧
   nth r'.symbol i "" = nth r.symbol (r.address.length - 1) "" ∧
   nth r'.decimals i 0 = nth r.decimals (r.address.length - 1) 0 ∧
   nth r'.feeOnTransferPercent i 0 = nth r.feeOnTransferPercent (r.address.length - 1) 0 ∧
   nth r'.gasForTransfer i 0 = nth r.gasForTransfer (r.address.length - 1) 0 ∧
   nth r'.id i 0 = nth r.id (r.address.length - 1) 0) ∧
  mapLookup (nth r.id (r.address.length - 1) 0) r'.idToIndex = some i ∧
  (mapLookup did r'.idToIndex = none ∧
   mapLookup (nth r.address i 0) r'.addressToID = none) ∧
  (∀ k j, k ≠ did → k ≠ nth r.id (r.address.length - 1) 0 →
    mapLookup k r.idToIndex = some j →
    mapLookup k r'.idToIndex = some j ∧
    nth r'.address j 0 = nth r.address j 0 ∧
    nth r'.name j "" = nth r.name j "" ∧
    nth r'.symbol j "" = nth r.symbol j "" ∧
    nth r'.decimals j 0 = nth r.decimals j 0 ∧
    nth r'.feeOnTransferPercent j 0 = nth r.feeOnTransferPercent j 0 ∧
    nth r'.gasForTransfer j 0 = nth r.gasForTransfer j 0 ∧
    nth r'.id j 0 = nth r.id j 0)

/-- C2: on an invariant-satisfying state, deleting a live identifier
whose slot is not the last slot succeeds and performs exactly the
swap-and-pop relocation described by DeleteSwapsLastSpec. -/
theorem C2_delete_swaps_last (r : TokenRegistry) (did i : Nat) (h : Inv r)
    (hl : mapLookup did r.idToIndex = some i) (hne : i ≠ r.address.length - 1) :
    (deleteToken did r).1 = .ok () ∧
    DeleteSwapsLastSpec r (deleteToken did r).2 did i := by
  obtain ⟨hLen, hIdNd, hAddrNd, hIdS, hIdC, hAdS, hAdC⟩ := h
  have hIdLen : r.id.length = r.address.length := hLen.2.2.2.2.2
  have hNmLen : r.name.length = r.address.length := hLen.1
  have hSyLen : r.symbol.length = r.address.length := hLen.2.1
  have hDcLen : r.decimals.length = r.address.length := hLen.2.2.1
  have hFeLen : r.feeOnTransferPercent.length = r.address.length := hLen.2.2.2.1
  have hGaLen : r.gasForTransfer.length = r.address.length := hLen.2.2.2.2.1
  have hi : i < r.address.length := (hIdS (did, i) (mem_of_mapLookup_eq_some hl)).1
  have hid : nth r.id i 0 = did := (hIdS (did, i) (mem_of_mapLookup_eq_some hl)).2
  have hlen1 : 1 ≤ r.address.length := by omega
  have hilt : i < r.address.length - 1 := by omega
  have hdidlast : did ≠ nth r.id (r.address.length - 1) 0 := by
    intro he
    have h1 := hIdC (r.address.length - 1) (by omega)
    rw [← he, hl] at h1
    have := Option.some.inj h1
    omega
  have hndI :
      ((mapInsert (nth r.id (r.address.length - 1) 0) i r.idToIndex).map Prod.fst).Nodup :=
    keys_nodup_mapInsert _ hIdNd
  constructor
  · simp only [deleteToken, hl]
  simp only [DeleteSwapsLastSpec, deleteToken, hl, if_pos hne]
  refine ⟨?_, ?_, ?_, ?_, ?_⟩
  · refine ⟨?_, ?_, ?_, ?_, ?_, ?_, ?_⟩ <;>
      simp only [List.length_take, List.length_set, hLen.1, hLen.2.1, hLen.2.2.1,
        hLen.2.2.2.1, hLen.2.2.2.2.1, hIdLen] <;> omega
  · refine ⟨?_, ?_, ?_, ?_, ?_, ?_, ?_⟩
    · rw [nth_take _ _ _ hilt, nth_set_self r.address i (by omega)]
    · rw [nth_take _ _ _ hilt, nth_set_self r.name i (by omega)]
    · rw [nth_take _ _ _ hilt, nth_set_self r.symbol i (by omega)]
    · rw [nth_take _ _ _ hilt, nth_set_self r.decimals i (by omega)]
    · rw [nth_take _ _ _ hilt, nth_set_self r.feeOnTransferPercent i (by omega)]
    · rw [nth_take _ _ _ hilt, nth_set_self r.gasForTransfer i (by omega)]
    · rw [nth_take _ _ _ hilt, nth_set_self r.id i (by omega)]
  · rw [mapLookup_erase_ne _ (Ne.symm hdidlast), mapLookup_insert_self]
  · exact ⟨mapLookup_erase_self hndI, mapLookup_erase_self hAddrNd⟩
  · intro k j hkd hkl hlk
    have hj : j < r.address.length := (hIdS (k, j) (mem_of_mapLookup_eq_some hlk)).1
    have hjid : nth r.id j 0 = k := (hIdS (k, j) (mem_of_mapLookup_eq_some hlk)).2
    have hji : j ≠ i := by
      intro he
      rw [he, hid] at hjid
      exact hkd hjid.symm
    have hjlast : j ≠ r.address.length - 1 := by
      intro he
      rw [he] at hjid
      exact hkl hjid.symm
    have hjlt : j < r.address.length - 1 := by omega
    refine ⟨?_, ?_, ?_, ?_, ?_, ?_, ?_, ?_⟩
    · rw [mapLookup_erase_ne _ hkd, mapLookup_insert_ne _ _ hkl]
      exact hlk
    · rw [nth_take _ _ _ hjlt, nth_set_ne r.address i j hji]
    · rw [nth_take _ _ _ hjlt, nth_set_ne r.name i j hji]
    · rw [nth_take _ _ _ hjlt, nth_set_ne r.symbol i j hji]
    · rw [nth_take _ _ _ hjlt, nth_set_ne r.decimals i j hji]
    · rw [nth_take _ _ _ hjlt, nth_set_ne r.feeOnTransferPercent i j hji]
    · rw [nth_take _ _ _ hjlt, nth_set_ne r.gasForTransfer i j hji]
    · rw [nth_take _ _ _ hjlt, nth_set_ne r.id i j hji]

/-- Witness for C2: deleting identifier 1 (slot 0 of 3) from a concrete
three-record registry. -/
theorem C2_delete_swaps_last_witness :
    (deleteToken 1 (run [Op.insert 5 "a" "A" 18, Op.insert 6 "b" "B" 8,
      Op.insert 7 "c" "C" 6] NewTokenRegistry)).1 = .ok () ∧
    DeleteSwapsLastSpec
      (run [Op.insert 5 "a" "A" 18, Op.insert 6 "b" "B" 8,
        Op.insert 7 "c" "C" 6] NewTokenRegistry)
      (deleteToken 1 (run [Op.insert 5 "a" "A" 18, Op.insert 6 "b" "B" 8,
        Op.insert 7 "c" "C" 6] NewTokenRegistry)).2 1 0 :=
  C2_delete_swaps_last _ 1 0 (by decide) (by decide) (by decide)

/-! Construction from snapshots: success characterization. -/

/-- Running maximum of the identifiers of a list of views, as the
construction loop computes it (Go: if view.ID > maxID). -/
def maxIdOf (views : List TokenView) : Nat :=
  views.foldl (fun m v => max m v.id) 0

/-- The registry NewTokenRegistryFromViews builds on success: every
sequence holds the views' fields in input order, each view's identifier
and address are bound to its slot, and the counter is one past the
maximum identifier (uint64 arithmetic). -/
def buildRegistry (views : List TokenView) : TokenRegistry :=
  { address := views.map (·.address)
    name := views.map (·.name)
    symbol := views.map (·.symbol)
    decimals := views.map (·.decimals)
    feeOnTransferPercent := views.map (·.feeOnTransferPercent)
    gasForTransfer := views.map (·.gasForTransfer)
    id := views.map (·.id)
    nextID := (maxIdOf views + 1) % U64
    idToIndex := (views.map (·.id)).zip (List.range views.length)
    addressToID := views.map (fun v => (v.address, v.id)) }

/-- Default view used as the out-of-range element for nth on views. -/
def dView : TokenView :=
  { id := 0, address := 0, name := "", symbol := "", decimals := 0
    feeOnTransferPercent := 0, gasForTransfer := 0 }

theorem mapInsert_eq_append {β : Type} {k : Nat} {m : List (Nat × β)} (v : β)
    (h : mapLookup k m = none) : mapInsert k v m = m ++ [(k, v)] := by
  induction m with
  | nil => rfl
  | cons p t ih =>
    rw [mapLookup_cons] at h
    by_cases hp : p.1 = k
    · rw [if_pos hp] at h
      exact absurd h (by simp)
    · rw [if_neg hp] at h
      rw [mapInsert_cons_ne v t hp, ih h, List.cons_append]

/-- On duplicate-free input the construction loop succeeds, appending
the views' fields and producing zipped index maps. -/
theorem fromViewsLoop_ok : ∀ (vs : List TokenView) (acc : TokenRegistry) (m : Nat),
    (vs.map (·.id)).Nodup → (vs.map (·.address)).Nodup →
    (∀ v ∈ vs, mapLookup v.id acc.idToIndex = none) →
    (∀ v ∈ vs, mapLookup v.address acc.addressToID = none) →
    fromViewsLoop vs acc m = .ok
      ({ address := acc.address ++ vs.map (·.address)
         name := acc.name ++ vs.map (·.name)
         symbol := acc.symbol ++ vs.map (·.symbol)
         decimals := acc.decimals ++ vs.map (·.decimals)
         feeOnTransferPercent := acc.feeOnTransferPercent ++ vs.map (·.feeOnTransferPercent)
         gasForTransfer := acc.gasForTransfer ++ vs.map (·.gasForTransfer)
         id := acc.id ++ vs.map (·.id)
         nextID := acc.nextID
         idToIndex :=
           acc.idToIndex ++ (vs.map (·.id)).zip (List.range' acc.address.length vs.length)
         addressToID := acc.addressToID ++ vs.map (fun v => (v.address, v.id)) },
       vs.foldl (fun m v => max m v.id) m) := by
  intro vs
  induction vs with
  | nil =>
    intro acc m _ _ _ _
    simp [fromViewsLoop]
  | cons v rest ih =>
    intro acc m hnd1 hnd2 hf1 hf2
    simp only [List.map_cons, List.nodup_cons] at hnd1 hnd2
    have hl1 : mapLookup v.id acc.idToIndex = none := hf1 v (List.mem_cons_self v rest)
    have hl2 : mapLookup v.address acc.addressToID = none := hf2 v (List.mem_cons_self v rest)
    simp only [fromViewsLoop, hl1, hl2]
    rw [ih _ (max m v.id) hnd1.2 hnd2.2
      (by
        intro v' hv'
        have hne : v'.id ≠ v.id := by
          intro he
          exact hnd1.1 (he ▸ List.mem_map_of_mem (·.id) hv')
        rw [mapLookup_insert_ne _ _ hne]
        exact hf1 v' (List.mem_cons_of_mem v hv'))
      (by
        intro v' hv'
        have hne : v'.address ≠ v.address := by
          intro he
          exact hnd2.1 (he ▸ List.mem_map_of_mem (·.address) hv')
        rw [mapLookup_insert_ne _ _ hne]
        exact hf2 v' (List.mem_cons_of_mem v hv'))]
    simp only [mapInsert_eq_append _ hl1, mapInsert_eq_append _ hl2,
      List.length_append, List.length_cons, List.length_nil, List.map_cons,
      List.range'_succ, List.zip_cons_cons, List.append_assoc, List.cons_append,
      List.nil_append, List.foldl_cons]

/-- On duplicate-free views, reconstruction succeeds and builds exactly
buildRegistry. -/
theorem fromViews_ok_eq (views : List TokenView)
    (hnd1 : (views.map (·.id)).Nodup) (hnd2 : (views.map (·.address)).Nodup) :
    NewTokenRegistryFromViews views = .ok (buildRegistry views) := by
  unfold NewTokenRegistryFromViews
  rw [fromViewsLoop_ok views NewTokenRegistry 0 hnd1 hnd2
    (by intro v _; rfl) (by intro v _; rfl)]
  simp [buildRegistry, maxIdOf, NewTokenRegistry, List.range_eq_range']

/-! Claim C6: validation order of construction from snapshot. -/

/-- Modelled on the spec's words: scan the views in input order while
remembering the identifiers and addresses already seen; at each view
check its identifier first, then its address, and report the first
duplicate found. -/
def firstDupErrAux : List Nat → List Nat → List TokenView → Option Err
  | _, _, [] => none
  | seenIds, seenAddrs, v :: rest =>
    if v.id ∈ seenIds then some (.duplicateID v.id)
    else if v.address ∈ seenAddrs then some (.duplicateAddress v.address)
    else firstDupErrAux (v.id :: seenIds) (v.address :: seenAddrs) rest

/-- First duplicate of a snapshot, in input order, identifier before
address. -/
def firstDupErr (views : List TokenView) : Option Err :=
  firstDupErrAux [] [] views

theorem fromViewsLoop_error_iff :
    ∀ (vs : List TokenView) (acc : TokenRegistry) (m : Nat)
      (sI sA : List Nat),
    (∀ k, (mapLookup k acc.idToIndex).isSome = true ↔ k ∈ sI) →
    (∀ a, (mapLookup a acc.addressToID).isSome = true ↔ a ∈ sA) →
    ∀ e, fromViewsLoop vs acc m = .error e ↔ firstDupErrAux sI sA vs = some e := by
  intro vs
  induction vs with
  | nil =>
    intro acc m sI sA _ _ e
    simp [fromViewsLoop, firstDupErrAux]
  | cons v rest ih =>
    intro acc m sI sA h1 h2 e
    by_cases hid : v.id ∈ sI
    · have hsome : (mapLookup v.id acc.idToIndex).isSome = true := (h1 v.id).2 hid
      rcases hl : mapLookup v.id acc.idToIndex with _ | x
      · rw [hl] at hsome
        simp at hsome
      · simp [fromViewsLoop, hl, firstDupErrAux, hid]
    · have hnone : mapLookup v.id acc.idToIndex = none := by
        rcases hl : mapLookup v.id acc.idToIndex with _ | x
        · rfl
        · exact absurd ((h1 v.id).1 (by rw [hl]; rfl)) hid
      by_cases haddr : v.address ∈ sA
      · have hsome : (mapLookup v.address acc.addressToID).isSome = true := (h2 v.address).2 haddr
        rcases hl : mapLookup v.address acc.addressToID with _ | x
        · rw [hl] at hsome
          simp at hsome
        · simp [fromViewsLoop, hnone, hl, firstDupErrAux, hid, haddr]
      · have hnone2 : mapLookup v.address acc.addressToID = none := by
          rcases hl : mapLookup v.address acc.addressToID with _ | x
          · rfl
          · exact absurd ((h2 v.address).1 (by rw [hl]; rfl)) haddr
        simp only [fromViewsLoop, hnone, hnone2, firstDupErrAux, if_neg hid, if_neg haddr]
        apply ih _ (max m v.id) (v.id :: sI) (v.address :: sA)
        · intro k
          by_cases hk : k = v.id
          · subst hk
            simp
          · rw [mapLookup_insert_ne _ _ hk]
            simp only [List.mem_cons, h1 k]
            exact ⟨Or.inr, fun hh => hh.elim (fun h3 => absurd h3 hk) (fun h3 => h3)⟩
        · intro a
          by_cases ha : a = v.address
          · subst ha
            simp
          · rw [mapLookup_insert_ne _ _ ha]
            simp only [List.mem_cons, h2 a]
            exact ⟨Or.inr, fun hh => hh.elim (fun h3 => absurd h3 ha) (fun h3 => h3)⟩

theorem fromViews_error_iff (views : List TokenView) (e : Err) :
    NewTokenRegistryFromViews views = .error e ↔ firstDupErr views = some e := by
  have h := fromViewsLoop_error_iff views NewTokenRegistry 0 [] []
    (by intro k; simp [NewTokenRegistry]) (by intro a; simp [NewTokenRegistry]) e
  rcases hloop : fromViewsLoop views NewTokenRegistry 0 with e' | p
  · rw [hloop] at h
    simp only [NewTokenRegistryFromViews, hloop, Except.error.injEq] at h ⊢
    exact h
  · rw [hloop] at h
    simp only [NewTokenRegistryFromViews, hloop]
    constructor
    · intro hh
      exact Except.noConfusion hh
    · intro hh
      exact Except.noConfusion (h.2 hh)

theorem firstDupErrAux_eq_none_iff :
    ∀ (vs : List TokenView) (sI sA : List Nat),
    firstDupErrAux sI sA vs = none ↔
      ((vs.map (·.id)).Nodup ∧ (vs.map (·.address)).Nodup ∧
       (∀ v ∈ vs, v.id ∉ sI) ∧ (∀ v ∈ vs, v.address ∉ sA)) := by
  intro vs
  induction vs with
  | nil =>
    intro sI sA
    simp [firstDupErrAux]
  | cons v rest ih =>
    intro sI sA
    by_cases hid : v.id ∈ sI
    · simp only [firstDupErrAux, if_pos hid]
      constructor
      · intro h
        exact Option.noConfusion h
      · rintro ⟨_, _, h3, _⟩
        exact absurd hid (h3 v (List.mem_cons_self v rest))
    · by_cases haddr : v.address ∈ sA
      · simp only [firstDupErrAux, if_neg hid, if_pos haddr]
        constructor
        · intro h
          exact Option.noConfusion h
        · rintro ⟨_, _, _, h4⟩
          exact absurd haddr (h4 v (List.mem_cons_self v rest))
      · simp only [firstDupErrAux, if_neg hid, if_neg haddr]
        rw [ih (v.id :: sI) (v.address :: sA)]
        constructor
        · rintro ⟨h1, h2, h3, h4⟩
          refine ⟨?_, ?_, ?_, ?_⟩
          · simp only [List.map_cons, List.nodup_cons]
            refine ⟨?_, h1⟩
            intro hmem
            rcases List.mem_map.1 hmem with ⟨v', hv', he⟩
            have h5 := h3 v' hv'
            simp only [List.mem_cons] at h5
            push_neg at h5
            exact h5.1 he
          · simp only [List.map_cons, List.nodup_cons]
            refine ⟨?_, h2⟩
            intro hmem
            rcases List.mem_map.1 hmem with ⟨v', hv', he⟩
            have h5 := h4 v' hv'
            simp only [List.mem_cons] at h5
            push_neg at h5
            exact h5.1 he
          · intro v' hv'
            rcases List.mem_cons.1 hv' with h5 | h5
            · exact h5 ▸ hid
            · have h6 := h3 v' h5
              simp only [List.mem_cons] at h6
              push_neg at h6
              exact h6.2
          · intro v' hv'
            rcases List.mem_cons.1 hv' with h5 | h5
            · exact h5 ▸ haddr
            · have h6 := h4 v' h5
              simp only [List.mem_cons] at h6
              push_neg at h6
              exact h6.2
        · rintro ⟨h1, h2, h3, h4⟩
          simp only [List.map_cons, List.nodup_cons] at h1 h2
          refine ⟨h1.2, h2.2, ?_, ?_⟩
          · intro v' hv'
            simp only [List.mem_cons]
            push_neg
            refine ⟨?_, h3 v' (List.mem_cons_of_mem v hv')⟩
            intro he
            exact h1.1 (he ▸ List.mem_map_of_mem (·.id) hv')
          · intro v' hv'
            simp only [List.mem_cons]
            push_neg
            refine ⟨?_, h4 v' (List.mem_cons_of_mem v hv')⟩
            intro he
            exact h2.1 (he ▸ List.mem_map_of_mem (·.address) hv')

theorem firstDupErr_eq_none_iff (views : List TokenView) :
    firstDupErr views = none ↔
      (views.map (·.id)).Nodup ∧ (views.map (·.address)).Nodup := by
  rw [firstDupErr, firstDupErrAux_eq_none_iff]
  simp

/-- C6: construction from snapshot fails exactly when two views share an
identifier or two views share an address; validation proceeds
incrementally in input order, checking each view's identifier before its
address, so the first duplicate encountered determines the error; and on
the concrete input [(id 5), (id 3), (id 5)] the result is the
duplicate-identifier error referencing 5. -/
theorem C6_validation_order (views : List TokenView) :
    (∀ e, NewTokenRegistryFromViews views = .error e ↔ firstDupErr views = some e) ∧
    (firstDupErr views = none ↔
      (views.map (·.id)).Nodup ∧ (views.map (·.address)).Nodup) ∧
    NewTokenRegistryFromViews
      [⟨5, 1, "", "", 0, 0, 0⟩, ⟨3, 2, "", "", 0, 0, 0⟩, ⟨5, 3, "", "", 0, 0, 0⟩] =
      .error (.duplicateID 5) :=
  ⟨fromViews_error_iff views, firstDupErr_eq_none_iff views, by decide⟩

theorem fromViews_ok_inv {views : List TokenView} {r : TokenRegistry}
    (h : NewTokenRegistryFromViews views = .ok r) :
    (views.map (·.id)).Nodup ∧ (views.map (·.address)).Nodup ∧
    r = buildRegistry views := by
  have hnone : firstDupErr views = none := by
    rcases hfd : firstDupErr views with _ | e
    · rfl
    · have h2 := (fromViews_error_iff views e).2 hfd
      rw [h2] at h
      exact Except.noConfusion h
  have hnd := (firstDupErr_eq_none_iff views).1 hnone
  have h3 := fromViews_ok_eq views hnd.1 hnd.2
  rw [h3] at h
  exact ⟨hnd.1, hnd.2, (Except.ok.inj h).symm⟩

theorem nth_map {α β : Type} (f : α → β) : ∀ (l : List α) (i : Nat), i < l.length →
    ∀ (d : α) (df : β), nth (l.map f) i df = f (nth l i d)
  | _ :: _, 0, _, _, _ => rfl
  | _ :: t, i + 1, h, d, df => nth_map f t i (by simpa using h) d df

theorem mapLookup_zip {β : Type} : ∀ (ks : List Nat) (vls : List β) (i : Nat) (dv : β),
    ks.Nodup → i < ks.length → ks.length = vls.length →
    mapLookup (nth ks i 0) (ks.zip vls) = some (nth vls i dv) := by
  intro ks
  induction ks with
  | nil =>
    intro vls i dv _ hi _
    simp at hi
  | cons k t ih =>
    intro vls i dv hnd hi hlen
    cases vls with
    | nil => simp at hlen
    | cons w ws =>
      cases i with
      | zero => simp [mapLookup]
      | succ i2 =>
        have hne : k ≠ nth t i2 0 := by
          intro he
          have hm : nth t i2 0 ∈ t := nth_mem t i2 (by simpa using hi) 0
          rw [← he] at hm
          exact (List.nodup_cons.1 hnd).1 hm
        simp only [nth_cons_succ, List.zip_cons_cons, mapLookup_cons, if_neg hne]
        exact ih ws i2 dv (List.nodup_cons.1 hnd).2 (by simpa using hi) (by simpa using hlen)

/-- The slot a view's identifier is bound to in the rebuilt registry. -/
theorem buildRegistry_id_lookup (views : List TokenView)
    (hnd1 : (views.map (·.id)).Nodup) (i : Nat) (hi : i < views.length)
    (v : TokenView) (hv : nth views i dView = v) :
    mapLookup v.id ((views.map (·.id)).zip (List.range views.length)) = some i := by
  have h1 : nth (views.map (·.id)) i 0 = v.id := by
    rw [nth_map (·.id) views i hi dView 0, hv]
  have h2 : nth (List.range views.length) i 0 = i := by
    rw [nth_eq_getElem _ i (by simpa using hi) 0, List.getElem_range]
  have h3 := mapLookup_zip (views.map (·.id)) (List.range views.length) i 0 hnd1
    (by simpa using hi) (by simp)
  rw [h1, h2] at h3
  exact h3

/-- Lookup by identifier in the rebuilt registry returns the view that
occupied that input position. -/
theorem buildRegistry_getTokenByID (views : List TokenView)
    (hnd1 : (views.map (·.id)).Nodup) (i : Nat) (hi : i < views.length)
    (v : TokenView) (hv : nth views i dView = v) :
    getTokenByID v.id (buildRegistry views) = .ok v := by
  have hlk := buildRegistry_id_lookup views hnd1 i hi v hv
  simp only [getTokenByID, buildRegistry, hlk]
  rw [nth_map (·.address) views i hi dView 0, nth_map (·.name) views i hi dView "",
    nth_map (·.symbol) views i hi dView "", nth_map (·.decimals) views i hi dView 0,
    nth_map (·.feeOnTransferPercent) views i hi dView 0,
    nth_map (·.gasForTransfer) views i hi dView 0, hv]

/-- Lookup by address in the rebuilt registry returns the view that
occupied that input position. -/
theorem buildRegistry_getTokenByAddress (views : List TokenView)
    (hnd1 : (views.map (·.id)).Nodup) (hnd2 : (views.map (·.address)).Nodup)
    (i : Nat) (hi : i < views.length)
    (v : TokenView) (hv : nth views i dView = v) :
    getTokenByAddress v.address (buildRegistry views) = .ok v := by
  have hzip : views.map (fun v => (v.address, v.id)) =
      (views.map (·.address)).zip (views.map (·.id)) :=
    (List.zip_map' (·.address) (·.id) views).symm
  have hlka : mapLookup v.address ((views.map (·.address)).zip (views.map (·.id))) =
      some v.id := by
    have h1 : nth (views.map (·.address)) i 0 = v.address := by
      rw [nth_map (·.address) views i hi dView 0, hv]
    have h2 : nth (views.map (·.id)) i 0 = v.id := by
      rw [nth_map (·.id) views i hi dView 0, hv]
    have h3 := mapLookup_zip (views.map (·.address)) (views.map (·.id)) i 0 hnd2
      (by simpa using hi) (by simp)
    rw [h1, h2] at h3
    exact h3
  have hlk := buildRegistry_id_lookup views hnd1 i hi v hv
  simp only [getTokenByAddress, buildRegistry, hzip, hlka, hlk, Option.getD_some]
  rw [nth_map (·.address) views i hi dView 0, nth_map (·.name) views i hi dView "",
    nth_map (·.symbol) views i hi dView "", nth_map (·.decimals) views i hi dView 0,
    nth_map (·.feeOnTransferPercent) views i hi dView 0,
    nth_map (·.gasForTransfer) views i hi dView 0, hv]

/-! Claim C7: counter value after construction from snapshot. -/

/-- C7 (amended): whenever construction from a snapshot succeeds, the
resulting identifier counter equals (maximum identifier + 1) mod 2^64 —
which is one greater than the maximum whenever the maximum is below
2^64 − 1 — and equals 1 when the input sequence is empty. -/
theorem C7_nextID_of_ok (views : List TokenView) (r : TokenRegistry)
    (h : NewTokenRegistryFromViews views = .ok r) :
    r.nextID = (maxIdOf views + 1) % U64 ∧ (views = [] → r.nextID = 1) := by
  obtain ⟨_, _, hb⟩ := fromViews_ok_inv h
  subst hb
  refine ⟨rfl, ?_⟩
  intro he
  subst he
  decide

/-- Witness for C7 on a concrete two-view snapshot. -/
theorem C7_nextID_of_ok_witness :
    ({ address := [1, 2], name := ["t", "u"], symbol := ["T", "U"], decimals := [0, 0]
       feeOnTransferPercent := [0, 0], gasForTransfer := [0, 0], id := [2, 7]
       nextID := 8, idToIndex := [(2, 0), (7, 1)], addressToID := [(1, 2), (2, 7)] }
      : TokenRegistry).nextID =
      (maxIdOf [⟨2, 1, "t", "T", 0, 0, 0⟩, ⟨7, 2, "u", "U", 0, 0, 0⟩] + 1) % U64 ∧
    ([⟨2, 1, "t", "T", 0, 0, 0⟩, ⟨7, 2, "u", "U", 0, 0, 0⟩] = ([] : List TokenView) →
      ({ address := [1, 2], name := ["t", "u"], symbol := ["T", "U"], decimals := [0, 0]
         feeOnTransferPercent := [0, 0], gasForTransfer := [0, 0], id := [2, 7]
         nextID := 8, idToIndex := [(2, 0), (7, 1)], addressToID := [(1, 2), (2, 7)] }
        : TokenRegistry).nextID = 1) :=
  C7_nextID_of_ok [⟨2, 1, "t", "T", 0, 0, 0⟩, ⟨7, 2, "u", "U", 0, 0, 0⟩] _ (by decide)

/-- C7 counterexample: a snapshot holding identifier 2^64 − 1 is
accepted, but the stored counter is (2^64 − 1 + 1) mod 2^64 = 0, not the
claimed one-greater-than-maximum value 2^64. -/
theorem C7_counterexample :
    NewTokenRegistryFromViews [⟨U64 - 1, 1, "t", "T", 0, 0, 0⟩] =
      .ok (buildRegistry [⟨U64 - 1, 1, "t", "T", 0, 0, 0⟩]) ∧
    (buildRegistry [⟨U64 - 1, 1, "t", "T", 0, 0, 0⟩]).nextID = 0 ∧
    maxIdOf [⟨U64 - 1, 1, "t", "T", 0, 0, 0⟩] + 1 = U64 ∧ (0 : Nat) ≠ U64 := by
  decide

/-! Claim C10: snapshots may contain identifier 0. -/

/-- C10 (amended): construction from a snapshot accepts a view with
identifier 0: when exactly one view carries identifier 0 and there are
no duplicate identifiers or addresses, construction succeeds, lookup by
identifier 0 afterwards returns that view, and the counter is set to
(maximum identifier + 1) mod 2^64 (equal to one greater than the largest
other identifier whenever that maximum is below 2^64 − 1, and to 1 when
0 is the only identifier) — so a live record with identifier 0 can exist
even though normal insertion assigns identifiers starting at 1. -/
theorem C10_zero_identifier (views : List TokenView)
    (hnd1 : (views.map (·.id)).Nodup) (hnd2 : (views.map (·.address)).Nodup)
    (hmem : 0 ∈ views.map (·.id)) :
    NewTokenRegistryFromViews views = .ok (buildRegistry views) ∧
    (∃ v ∈ views, v.id = 0 ∧ getTokenByID 0 (buildRegistry views) = .ok v) ∧
    (buildRegistry views).nextID = (maxIdOf views + 1) % U64 := by
  refine ⟨fromViews_ok_eq views hnd1 hnd2, ?_, rfl⟩
  rcases List.mem_map.1 hmem with ⟨v, hv, hvid⟩
  rcases List.getElem_of_mem hv with ⟨i, hi, he⟩
  have hnth : nth views i dView = v := by
    rw [nth_eq_getElem views i hi dView, he]
  refine ⟨v, hv, hvid, ?_⟩
  have hb := buildRegistry_getTokenByID views hnd1 i hi v hnth
  rw [hvid] at hb
  exact hb

/-- Witness for C10 on a concrete snapshot holding identifiers 0 and 5. -/
theorem C10_zero_identifier_witness :
    NewTokenRegistryFromViews [⟨0, 1, "z", "Z", 3, 0, 0⟩, ⟨5, 2, "t", "T", 0, 0, 0⟩] =
      .ok (buildRegistry [⟨0, 1, "z", "Z", 3, 0, 0⟩, ⟨5, 2, "t", "T", 0, 0, 0⟩]) ∧
    (∃ v ∈ [⟨0, 1, "z", "Z", 3, 0, 0⟩, ⟨5, 2, "t", "T", 0, 0, 0⟩], v.id = 0 ∧
      getTokenByID 0 (buildRegistry
        [⟨0, 1, "z", "Z", 3, 0, 0⟩, ⟨5, 2, "t", "T", 0, 0, 0⟩]) = .ok v) ∧
    (buildRegistry [⟨0, 1, "z", "Z", 3, 0, 0⟩, ⟨5, 2, "t", "T", 0, 0, 0⟩]).nextID =
      (maxIdOf [⟨0, 1, "z", "Z", 3, 0, 0⟩, ⟨5, 2, "t", "T", 0, 0, 0⟩] + 1) % U64 :=
  C10_zero_identifier _ (by decide) (by decide) (by decide)

/-- C10 counterexample: with views carrying identifiers 0 and 2^64 − 1,
construction succeeds and lookups work, but the counter is 0, not one
greater than the maximum identifier of the other views (2^64). -/
theorem C10_counterexample :
    NewTokenRegistryFromViews
      [⟨0, 1, "z", "Z", 0, 0, 0⟩, ⟨U64 - 1, 2, "t", "T", 0, 0, 0⟩] =
      .ok (buildRegistry [⟨0, 1, "z", "Z", 0, 0, 0⟩, ⟨U64 - 1, 2, "t", "T", 0, 0, 0⟩]) ∧
    (buildRegistry [⟨0, 1, "z", "Z", 0, 0, 0⟩, ⟨U64 - 1, 2, "t", "T", 0, 0, 0⟩]).nextID
      = 0 ∧
    (U64 - 1) + 1 = U64 ∧ (0 : Nat) ≠ U64 := by
  decide

/-! Claim C5: snapshot / reconstruct round trip. -/

theorem viewRegistry_length (r : TokenRegistry) :
    (viewRegistry r).length = r.address.length := by
  simp [viewRegistry]

theorem map_nth_range {α : Type} (l : List α) (d : α) :
    (List.range l.length).map (fun i => nth l i d) = l := by
  apply List.ext_getElem
  · simp
  · intro i h1 h2
    simp only [List.getElem_map, List.getElem_range]
    exact nth_eq_getElem l i h2 d

theorem map_nth_range2 {α : Type} (l : List α) (n : Nat) (hn : l.length = n) (d : α) :
    (List.range n).map (fun i => nth l i d) = l := by
  subst hn
  exact map_nth_range l d

theorem viewRegistry_map_id (r : TokenRegistry) (hlen : r.id.length = r.address.length) :
    (viewRegistry r).map (·.id) = r.id := by
  simp only [viewRegistry, List.map_map]
  exact map_nth_range2 r.id r.address.length hlen 0

theorem viewRegistry_map_address (r : TokenRegistry) :
    (viewRegistry r).map (·.address) = r.address := by
  simp only [viewRegistry, List.map_map]
  exact map_nth_range2 r.address r.address.length rfl 0

theorem viewRegistry_nth (r : TokenRegistry) (i : Nat) (hi : i < r.address.length) :
    nth (viewRegistry r) i dView =
      { id := nth r.id i 0, address := nth r.address i 0, name := nth r.name i ""
        symbol := nth r.symbol i "", decimals := nth r.decimals i 0
        feeOnTransferPercent := nth r.feeOnTransferPercent i 0
        gasForTransfer := nth r.gasForTransfer i 0 } := by
  simp only [viewRegistry]
  rw [nth_map _ (List.range r.address.length) i (by simpa using hi) 0 dView,
    nth_eq_getElem _ i (by simpa using hi) 0, List.getElem_range]

/-- C5: for every registry satisfying the store invariants, constructing
a new registry from its full snapshot succeeds, and every lookup by a
live identifier or live address of the original succeeds in the
reconstruction and returns a field-for-field identical view. -/
theorem C5_snapshot_roundtrip (r : TokenRegistry) (h : Inv r) :
    NewTokenRegistryFromViews (viewRegistry r) =
      .ok (buildRegistry (viewRegistry r)) ∧
    (∀ k i, mapLookup k r.idToIndex = some i →
      ∃ v, getTokenByID k r = .ok v ∧
        getTokenByID k (buildRegistry (viewRegistry r)) = .ok v) ∧
    (∀ a id0, mapLookup a r.addressToID = some id0 →
      ∃ v, getTokenByAddress a r = .ok v ∧
        getTokenByAddress a (buildRegistry (viewRegistry r)) = .ok v) := by
  have hIdLen : r.id.length = r.address.length := h.1.2.2.2.2.2
  have hndid : ((viewRegistry r).map (·.id)).Nodup := by
    rw [viewRegistry_map_id r hIdLen]
    exact id_nodup_of_inv h
  have hndaddr : ((viewRegistry r).map (·.address)).Nodup := by
    rw [viewRegistry_map_address r]
    exact address_nodup_of_inv h
  refine ⟨fromViews_ok_eq _ hndid hndaddr, ?_, ?_⟩
  · intro k i hlk
    have hi : i < r.address.length := (h.2.2.2.1 (k, i) (mem_of_mapLookup_eq_some hlk)).1
    have hk : nth r.id i 0 = k := (h.2.2.2.1 (k, i) (mem_of_mapLookup_eq_some hlk)).2
    have hvlen : i < (viewRegistry r).length := by
      rw [viewRegistry_length]
      exact hi
    have hnth : nth (viewRegistry r) i dView =
        { id := k, address := nth r.address i 0, name := nth r.name i ""
          symbol := nth r.symbol i "", decimals := nth r.decimals i 0
          feeOnTransferPercent := nth r.feeOnTransferPercent i 0
          gasForTransfer := nth r.gasForTransfer i 0 } := by
      rw [viewRegistry_nth r i hi, hk]
    refine ⟨{ id := k, address := nth r.address i 0, name := nth r.name i ""
              symbol := nth r.symbol i "", decimals := nth r.decimals i 0
              feeOnTransferPercent := nth r.feeOnTransferPercent i 0
              gasForTransfer := nth r.gasForTransfer i 0 }, ?_, ?_⟩
    · simp only [getTokenByID, hlk]
    · exact buildRegistry_getTokenByID (viewRegistry r) hndid i hvlen _ hnth
  · intro a id0 hla
    obtain ⟨i, hi, hidv, haddv⟩ :=
      h.2.2.2.2.2.1 (a, id0) (mem_of_mapLookup_eq_some hla)
    have hidv2 : nth r.id i 0 = id0 := hidv
    have haddv2 : nth r.address i 0 = a := haddv
    have hlk : mapLookup id0 r.idToIndex = some i := by
      rw [← hidv2]
      exact h.2.2.2.2.1 i hi
    have hvlen : i < (viewRegistry r).length := by
      rw [viewRegistry_length]
      exact hi
    have hnth : nth (viewRegistry r) i dView =
        { id := id0, address := a, name := nth r.name i ""
          symbol := nth r.symbol i "", decimals := nth r.decimals i 0
          feeOnTransferPercent := nth r.feeOnTransferPercent i 0
          gasForTransfer := nth r.gasForTransfer i 0 } := by
      rw [viewRegistry_nth r i hi, hidv2, haddv2]
    refine ⟨{ id := id0, address := a, name := nth r.name i ""
              symbol := nth r.symbol i "", decimals := nth r.decimals i 0
              feeOnTransferPercent := nth r.feeOnTransferPercent i 0
              gasForTransfer := nth r.gasForTransfer i 0 }, ?_, ?_⟩
    · simp only [getTokenByAddress, hla, hlk, Option.getD_some]
      rw [haddv2]
    · exact buildRegistry_getTokenByAddress (viewRegistry r) hndid hndaddr i hvlen _ hnth

/-- Witness for C5 on a concrete two-record registry. -/
theorem C5_snapshot_roundtrip_witness :
    NewTokenRegistryFromViews
      (viewRegistry (run [Op.insert 5 "a" "A" 18, Op.insert 6 "b" "B" 8] NewTokenRegistry)) =
      .ok (buildRegistry (viewRegistry
        (run [Op.insert 5 "a" "A" 18, Op.insert 6 "b" "B" 8] NewTokenRegistry))) ∧
    (∀ k i, mapLookup k
        (run [Op.insert 5 "a" "A" 18, Op.insert 6 "b" "B" 8] NewTokenRegistry).idToIndex =
          some i →
      ∃ v, getTokenByID k
          (run [Op.insert 5 "a" "A" 18, Op.insert 6 "b" "B" 8] NewTokenRegistry) = .ok v ∧
        getTokenByID k (buildRegistry (viewRegistry
          (run [Op.insert 5 "a" "A" 18, Op.insert 6 "b" "B" 8] NewTokenRegistry))) = .ok v) ∧
    (∀ a id0, mapLookup a
        (run [Op.insert 5 "a" "A" 18, Op.insert 6 "b" "B" 8] NewTokenRegistry).addressToID =
          some id0 →
      ∃ v, getTokenByAddress a
          (run [Op.insert 5 "a" "A" 18, Op.insert 6 "b" "B" 8] NewTokenRegistry) = .ok v ∧
        getTokenByAddress a (buildRegistry (viewRegistry
          (run [Op.insert 5 "a" "A" 18, Op.insert 6 "b" "B" 8] NewTokenRegistry))) = .ok v) :=
  C5_snapshot_roundtrip _ (by decide)

/-! Claim C8: lookup by address. -/

/-- C8 (amended): lookup by address returns not-found exactly when the
address→identifier step fails; the identifier→slot step is performed
WITHOUT an ok-check (a missing identifier silently reads Go's zero-value
slot 0).  On states satisfying the store invariants the second step
always succeeds and the result is the view of the resolved identifier's
slot, i.e. it agrees with lookup by that identifier. -/
theorem C8_lookup_by_address (r : TokenRegistry) (h : Inv r) (a : Nat) :
    (mapLookup a r.addressToID = none →
      getTokenByAddress a r = .error .tokenNotFound) ∧
    (∀ id0, mapLookup a r.addressToID = some id0 →
      (∃ i, mapLookup id0 r.idToIndex = some i) ∧
      getTokenByAddress a r = getTokenByID id0 r) := by
  constructor
  · intro hl
    simp [getTokenByAddress, hl]
  · intro id0 hl
    obtain ⟨i, hi, hidv, haddv⟩ :=
      h.2.2.2.2.2.1 (a, id0) (mem_of_mapLookup_eq_some hl)
    have hidv2 : nth r.id i 0 = id0 := hidv
    have hlk : mapLookup id0 r.idToIndex = some i := by
      rw [← hidv2]
      exact h.2.2.2.2.1 i hi
    exact ⟨⟨i, hlk⟩, by simp [getTokenByAddress, getTokenByID, hl, hlk]⟩

/-- Witness for C8 on a concrete two-record registry, for address 6. -/
theorem C8_lookup_by_address_witness :
    (mapLookup 6 (run [Op.insert 5 "a" "A" 18, Op.insert 6 "b" "B" 8]
        NewTokenRegistry).addressToID = none →
      getTokenByAddress 6 (run [Op.insert 5 "a" "A" 18, Op.insert 6 "b" "B" 8]
        NewTokenRegistry) = .error .tokenNotFound) ∧
    (∀ id0, mapLookup 6 (run [Op.insert 5 "a" "A" 18, Op.insert 6 "b" "B" 8]
        NewTokenRegistry).addressToID = some id0 →
      (∃ i, mapLookup id0 (run [Op.insert 5 "a" "A" 18, Op.insert 6 "b" "B" 8]
        NewTokenRegistry).idToIndex = some i) ∧
      getTokenByAddress 6 (run [Op.insert 5 "a" "A" 18, Op.insert 6 "b" "B" 8]
          NewTokenRegistry) =
        getTokenByID id0 (run [Op.insert 5 "a" "A" 18, Op.insert 6 "b" "B" 8]
          NewTokenRegistry)) :=
  C8_lookup_by_address _ (by decide) 6

/-- State exhibiting the unchecked second lookup step: address 9 maps to
identifier 123, but 123 has no slot entry. -/
def cex8Registry : TokenRegistry :=
  { address := [55], name := ["x"], symbol := ["X"], decimals := [7]
    feeOnTransferPercent := [0], gasForTransfer := [0], id := [4]
    nextID := 5, idToIndex := [], addressToID := [(9, 123)] }

/-- C8 counterexample: on a state where the address→identifier step
succeeds but the identifier→slot step fails, getTokenByAddress does NOT
return not-found — it returns a view read from slot 0 (Go's zero value
for the missing map entry), so the claim's "fails at either step" is
wrong about the code, which only checks the first step. -/
theorem C8_counterexample :
    mapLookup 9 cex8Registry.addressToID = some 123 ∧
    mapLookup 123 cex8Registry.idToIndex = none ∧
    getTokenByAddress 9 cex8Registry =
      .ok { id := 123, address := 55, name := "x", symbol := "X", decimals := 7
            feeOnTransferPercent := 0, gasForTransfer := 0 } ∧
    getTokenByAddress 9 cex8Registry ≠ .error .tokenNotFound := by
  decide

example : runIds [Op.insert 5 "a" "A" 18, Op.insert 6 "b" "B" 18,
    Op.delete 1, Op.insert 5 "a" "A" 18] NewTokenRegistry = [1, 2, 3] := by decide

example : (run [Op.insert 5 "a" "A" 18, Op.insert 6 "b" "B" 18,
    Op.delete 1] NewTokenRegistry).address = [6] := by decide

example : NewTokenRegistryFromViews
    [⟨5, 1, "", "", 0, 0, 0⟩, ⟨3, 2, "", "", 0, 0, 0⟩, ⟨5, 3, "", "", 0, 0, 0⟩]
    = .error (.duplicateID 5) := by decide

end Token
